import Mathlib

/-!
# Order book driver (`present.cpp`): input parsing and dispatch

A shallow embedding of the scenario-file reader `InputHandler` and of the
dispatch loop of `main`, followed by a model of the matching engine the
driver calls.

Conventions of the embedding.

* A `std::string_view` / `std::string` is a `List Char` (`Str`).
* `std::uint32_t` values (`Price`, `Quantity`, `OrderId`) are natural numbers;
  the narrowing cast in `ToNumber` is an explicit `% 2 ^ 32`.
* A C++ function that may throw returns `Res α`: `ok` for a normal return,
  `throw` for an exception leaving the function, and `undefined` when the
  function performs an unchecked out-of-range `operator[]` read on a
  `std::vector` (behaviour the language leaves undefined: no exception is
  raised by the program text).
* `std::string::npos` is `none`.
-/

namespace Present

/-! ## Basic types -/

abbrev Str := List Char

abbrev Price := Nat
abbrev Quantity := Nat
abbrev OrderId := Nat

/-- The `Side` enumeration of `Orderbook.h`, as used by `ParseSide`. -/
inductive Side
  | Buy
  | Sell
  deriving DecidableEq, Repr

/-- The `OrderType` enumeration of `Orderbook.h`, as used by `ParseOrderType`. -/
inductive OrderType
  | GoodTillCancel
  | FillAndKill
  | FillOrKill
  | GoodForDay
  | Market
  deriving DecidableEq, Repr

/-- The enumeration `ActionType` with its values Add, Cancel and Modify. -/
inductive ActionType
  | Add
  | Cancel
  | Modify
  deriving DecidableEq, Repr

/-- The record `struct Information`. -/
structure Information where
  type_ : ActionType
  orderType_ : OrderType
  side_ : Side
  price_ : Price
  quantity_ : Quantity
  orderId_ : OrderId
  deriving DecidableEq, Repr

/-- Exceptions that the driver code can raise. -/
inductive Exn
  | logic_error (what : String)
  | out_of_range
  deriving DecidableEq, Repr

/-- Outcome of a C++ call: normal return, exception, or undefined behaviour
(an unchecked read past the end of a vector). -/
inductive Res (α : Type)
  | ok (a : α)
  | throw (e : Exn)
  | undefined
  deriving DecidableEq, Repr

/-- Sequencing of C++ statements: the first exception or undefined step ends
the computation. -/
def Res.bind {α β : Type} (r : Res α) (f : α → Res β) : Res β :=
  match r with
  | Res.ok a => f a
  | Res.throw e => Res.throw e
  | Res.undefined => Res.undefined

instance : Monad Res where
  pure := Res.ok
  bind := Res.bind

/-- The outcome is an exception (of any kind). -/
def Res.raises {α : Type} (r : Res α) : Bool :=
  match r with
  | Res.throw _ => true
  | _ => false

/-! ## `ToNumber` -/

/-- Decimal digit test used by `std::from_chars` in base 10. -/
def isDigit (c : Char) : Bool := decide (48 ≤ c.toNat) && decide (c.toNat ≤ 57)

/-- Value of a decimal digit character. -/
def digitVal (c : Char) : Nat := c.toNat - 48

/-- Value of a run of decimal digits, most significant first. -/
def decVal (ds : List Char) : Nat := ds.foldl (fun acc c => 10 * acc + digitVal c) 0

/-- The library function `std::from_chars(first, last, value)` for `std::int64_t`, base 10.
The pattern is an optional minus sign followed by the longest run of decimal
digits; no leading whitespace and no plus sign are accepted. When there is no
digit (`errc::invalid_argument`) or the digits denote a number outside the
signed 64-bit range (`errc::result_out_of_range`), `value` is left unmodified.
The returned `from_chars_result` is discarded by the only caller, so only the
new content of `value` is returned here. -/
def from_chars (str : Str) (value : Int) : Int :=
  let neg : Bool := match str with
    | c :: _ => c == '-'
    | [] => false
  let rest : Str := if neg then str.drop 1 else str
  let ds := rest.takeWhile isDigit
  if ds = [] then value
  else
    let v : Int := if neg then -((decVal ds : Nat) : Int) else ((decVal ds : Nat) : Int)
    if -(2 : Int) ^ 63 ≤ v ∧ v < (2 : Int) ^ 63 then v else value

/-- The function `InputHandler::ToNumber`. -/
def ToNumber (str : Str) : Res Nat :=
  let value : Int := from_chars str 0
  if value < 0 then Res.throw (Exn.logic_error "Value is below zero.")
  else Res.ok (value.toNat % 2 ^ 32)

/-! ## `Split` -/

/-- Search for the first occurrence of `d` in `cs`, the head of `cs` being at
position `pos`. -/
def findFrom (d : Char) : Str → Nat → Option Nat
  | [], _ => none
  | c :: cs, pos => if c = d then some pos else findFrom d cs (pos + 1)

/-- The call `str.find(delimeter, start)`: the least index `i ≥ start` with
`str[i] = delimeter`, or `npos` (`none`). -/
def find (str : Str) (d : Char) (start : Nat) : Option Nat :=
  findFrom d (str.drop start) start

/-- The call `str.substr(pos, n)` for `pos ≤ str.size()`. -/
def substr (str : Str) (pos n : Nat) : Str := (str.drop pos).take n

/-- The call `str.substr(pos)` for `pos ≤ str.size()`. -/
def substrFrom (str : Str) (pos : Nat) : Str := str.drop pos

/-- The `while` loop of `InputHandler::Split` together with the final
`push_back`. Each iteration moves `start_index` past one delimiter, so
`str.size() + 1` iterations always suffice (`SplitLoop_eq_fields`); `fuel` bounds
the number of iterations. The loop stops when `find` returns `0` (the
assignment inside the condition is false) or `npos`. -/
def SplitLoop (str : Str) (delimeter : Char) :
    Nat → Nat → List Str → List Str
  | 0, start_index, columns => columns ++ [substrFrom str start_index]
  | fuel + 1, start_index, columns =>
    match find str delimeter start_index with
    | none => columns ++ [substrFrom str start_index]
    | some end_index =>
      if end_index = 0 then columns ++ [substrFrom str start_index]
      else
        let distance := end_index - start_index
        let column := substr str start_index distance
        SplitLoop str delimeter fuel (end_index + 1) (columns ++ [column])

/-- The function `InputHandler::Split`. -/
def Split (str : Str) (delimeter : Char) : List Str :=
  SplitLoop str delimeter (str.length + 1) 0 []

/-! ## Field parsers -/

/-- The function `InputHandler::ParseSide`. -/
def ParseSide (str : Str) : Res Side :=
  if str = "B".toList then Res.ok Side.Buy
  else if str = "S".toList then Res.ok Side.Sell
  else Res.throw (Exn.logic_error "Unknown Side")

/-- The function `InputHandler::ParseOrderType`. -/
def ParseOrderType (str : Str) : Res OrderType :=
  if str = "FillAndKill".toList then Res.ok OrderType.FillAndKill
  else if str = "GoodTillCancel".toList then Res.ok OrderType.GoodTillCancel
  else if str = "GoodForDay".toList then Res.ok OrderType.GoodForDay
  else if str = "FillOrKill".toList then Res.ok OrderType.FillOrKill
  else if str = "Market".toList then Res.ok OrderType.Market
  else Res.throw (Exn.logic_error "Unknown OrderType")

/-- The function `InputHandler::ParsePrice`. -/
def ParsePrice (str : Str) : Res Price :=
  if str = [] then Res.throw (Exn.logic_error "Unknown Price")
  else ToNumber str

/-- The function `InputHandler::ParseQuantity`. -/
def ParseQuantity (str : Str) : Res Quantity :=
  if str = [] then Res.throw (Exn.logic_error "Unknown Quantity")
  else ToNumber str

/-- The function `InputHandler::ParseOrderId`. -/
def ParseOrderId (str : Str) : Res OrderId :=
  if str = [] then Res.throw (Exn.logic_error "Empty OrderId")
  else ToNumber str

/-- Unchecked `values[k]` on a `std::vector`: reading at or past `size()` is
undefined behaviour, not an exception. -/
def index (values : List Str) (k : Nat) : Res Str :=
  match values.get? k with
  | some v => Res.ok v
  | none => Res.undefined

/-- The function `InputHandler::TryParseInformation`. The out-parameter `action` is passed
in and the updated record is returned next to the boolean result. Statements
run in source order, so the first failing column decides the outcome. -/
def TryParseInformation (str : Str) (action : Information) : Res (Bool × Information) :=
  match str with
  | [] => Res.throw Exn.out_of_range
  | value :: _ =>
    let values := Split str ' '
    if value = 'A' then do
      let action := { action with type_ := ActionType.Add }
      let side ← (index values 1).bind ParseSide
      let action := { action with side_ := side }
      let orderType ← (index values 2).bind ParseOrderType
      let action := { action with orderType_ := orderType }
      let price ← (index values 3).bind ParsePrice
      let action := { action with price_ := price }
      let quantity ← (index values 4).bind ParseQuantity
      let action := { action with quantity_ := quantity }
      let orderId ← (index values 5).bind ParseOrderId
      let action := { action with orderId_ := orderId }
      Res.ok (true, action)
    else if value = 'M' then do
      let action := { action with type_ := ActionType.Modify }
      let orderId ← (index values 1).bind ParseOrderId
      let action := { action with orderId_ := orderId }
      let side ← (index values 2).bind ParseSide
      let action := { action with side_ := side }
      let price ← (index values 3).bind ParsePrice
      let action := { action with price_ := price }
      let quantity ← (index values 4).bind ParseQuantity
      let action := { action with quantity_ := quantity }
      Res.ok (true, action)
    else if value = 'C' then do
      let action := { action with type_ := ActionType.Cancel }
      let orderId ← (index values 1).bind ParseOrderId
      let action := { action with orderId_ := orderId }
      Res.ok (true, action)
    else Res.ok (false, action)

/-- The `continue` test of `GetActionsOnly`: empty line, or first character
`#` or `R`. -/
def skipLine (line : Str) : Bool :=
  match line with
  | [] => true
  | c :: _ => c == '#' || c == 'R'

/-- The `while (std::getline(file, line))` loop of `GetActionsOnly`, on the
remaining lines of the file, `actions` being the vector built so far.
`uninit` stands for the content of the default-initialised local
`Information action;`, whose fields are indeterminate until assigned. -/
def GetActionsLoop (uninit : Information) : List Str → List Information → Res (List Information)
  | [], actions => Res.ok actions
  | line :: rest, actions =>
    if skipLine line then GetActionsLoop uninit rest actions
    else
      match TryParseInformation line uninit with
      | Res.ok (true, action) => GetActionsLoop uninit rest (actions ++ [action])
      | Res.ok (false, _) => GetActionsLoop uninit rest actions
      | Res.throw e => Res.throw e
      | Res.undefined => Res.undefined

/-- The function `InputHandler::GetActionsOnly`; the file is given as its list of lines. -/
def GetActionsOnly (uninit : Information) (file : List Str) : Res (List Information) :=
  GetActionsLoop uninit file []

/-! ## Reference functions for the parser -/

/-- The columns of a string in the usual sense: the maximal runs between
occurrences of the delimiter, in order (consecutive delimiters give empty
columns). Used to describe what the index-based loop of `Split` computes. -/
def fields (d : Char) : Str → List Str
  | [] => [[]]
  | c :: cs =>
    if c = d then [] :: fields d cs
    else
      match fields d cs with
      | [] => [[c]]
      | f :: fs => (c :: f) :: fs

/-- A sample content of the uninitialised local `Information action;`. -/
def blank : Information :=
  { type_ := ActionType.Add, orderType_ := OrderType.GoodTillCancel, side_ := Side.Buy,
    price_ := 0, quantity_ := 0, orderId_ := 0 }

/-- The command kind a line stands for, read off its first character: `A`
is Add, `M` is Modify, `C` is Cancel, and any other line stands for no
command. -/
def lineKind (line : Str) : Option ActionType :=
  match line with
  | [] => none
  | c :: _ =>
    if c = 'A' then some ActionType.Add
    else if c = 'M' then some ActionType.Modify
    else if c = 'C' then some ActionType.Cancel
    else none

/-- The line begins with one of the three command letters. -/
def recognised (line : Str) : Bool := (lineKind line).isSome

/-! ## The dispatch loop of `main` -/

/-- The engine's resting-order record. The driver only uses its five-argument
constructor (`Order.new`). -/
structure Order where
  orderType_ : OrderType
  orderId_ : OrderId
  side_ : Side
  price_ : Price
  initialQuantity_ : Quantity
  remainingQuantity_ : Quantity
  deriving DecidableEq, Repr

/-- The constructor `Order(orderType, orderId, side, price, quantity)`: a new order has its
whole quantity remaining. -/
def Order.new (orderType : OrderType) (orderId : OrderId) (side : Side) (price : Price)
    (quantity : Quantity) : Order :=
  { orderType_ := orderType, orderId_ := orderId, side_ := side, price_ := price,
    initialQuantity_ := quantity, remainingQuantity_ := quantity }

/-- The aggregate `OrderModify` built from (orderId, side, price, quantity). -/
structure OrderModify where
  orderId_ : OrderId
  side_ : Side
  price_ : Price
  quantity_ : Quantity
  deriving DecidableEq, Repr

/-- The three engine operations called by `main`, on a book of type `σ`.
`Orderbook.h` is not part of the sources, so the engine is a parameter of the
driver; the values the operations return are ignored by `main`, and the
operations are taken to return normally. -/
structure Engine (σ : Type) where
  AddOrder : σ → Order → σ
  CancelOrder : σ → OrderId → σ
  ModifyOrder : σ → OrderModify → σ

/-- The loop `for (const auto& action : actions) switch (action.type_)` of
`main`. -/
def dispatch {σ : Type} (E : Engine σ) : List Information → σ → σ
  | [], orderbook => orderbook
  | action :: rest, orderbook =>
    match action.type_ with
    | ActionType.Add =>
      dispatch E rest (E.AddOrder orderbook
        (Order.new action.orderType_ action.orderId_ action.side_ action.price_
          action.quantity_))
    | ActionType.Cancel =>
      dispatch E rest (E.CancelOrder orderbook action.orderId_)
    | ActionType.Modify =>
      dispatch E rest (E.ModifyOrder orderbook
        { orderId_ := action.orderId_, side_ := action.side_, price_ := action.price_,
          quantity_ := action.quantity_ })

/-- What a run of `main` leaves behind: the exit status, the engine state, and
whether `PrintResults` was reached. -/
structure RunResult (σ : Type) where
  exitCode : Nat
  orderbook : σ
  printed : Bool

/-- The function `main`. `argc` is the argument count, `fileExists` the result
of `std::filesystem::exists`, `file` the lines of the scenario file and
`orderbook` the freshly constructed engine. Every exception is caught by the
`catch (const std::exception&)` clause, which returns `1`; a run whose parser
reads past the end of the column vector has no defined result. -/
def main {σ : Type} (E : Engine σ) (argc : Nat) (fileExists : Bool) (uninit : Information)
    (file : List Str) (orderbook : σ) : Option (RunResult σ) :=
  if argc ≠ 2 then some { exitCode := 1, orderbook := orderbook, printed := false }
  else if !fileExists then some { exitCode := 1, orderbook := orderbook, printed := false }
  else
    match GetActionsOnly uninit file with
    | Res.ok actions =>
      some { exitCode := 0, orderbook := dispatch E actions orderbook, printed := true }
    | Res.throw _ => some { exitCode := 1, orderbook := orderbook, printed := false }
    | Res.undefined => none

/-- One call received by the engine. -/
inductive EngineCall
  | AddOrder (order : Order)
  | CancelOrder (orderId : OrderId)
  | ModifyOrder (order : OrderModify)
  deriving DecidableEq, Repr

/-- An engine that only records the calls it receives, in order. -/
def recorder : Engine (List EngineCall) where
  AddOrder := fun calls order => calls ++ [EngineCall.AddOrder order]
  CancelOrder := fun calls orderId => calls ++ [EngineCall.CancelOrder orderId]
  ModifyOrder := fun calls order => calls ++ [EngineCall.ModifyOrder order]

/-- The engine call a command stands for, as the interface section of the
specification words it: Add carries (type, id, side, price, quantity), Cancel
the id, Modify (id, side, price, quantity) and no type. -/
def callOf (action : Information) : EngineCall :=
  match action.type_ with
  | ActionType.Add =>
    EngineCall.AddOrder (Order.new action.orderType_ action.orderId_ action.side_
      action.price_ action.quantity_)
  | ActionType.Cancel => EngineCall.CancelOrder action.orderId_
  | ActionType.Modify =>
    EngineCall.ModifyOrder ⟨action.orderId_, action.side_, action.price_, action.quantity_⟩

/-- Apply one recorded call to an engine. -/
def applyCall {σ : Type} (E : Engine σ) (orderbook : σ) : EngineCall → σ
  | EngineCall.AddOrder order => E.AddOrder orderbook order
  | EngineCall.CancelOrder orderId => E.CancelOrder orderbook orderId
  | EngineCall.ModifyOrder order => E.ModifyOrder orderbook order

/-! ## Tokens of the scenario format -/

/-- The side token of the scenario format. -/
def sideToken : Side → Str
  | Side.Buy => "B".toList
  | Side.Sell => "S".toList

/-- The order-type token of the scenario format: the name of the type. -/
def typeToken : OrderType → Str
  | OrderType.GoodTillCancel => "GoodTillCancel".toList
  | OrderType.FillAndKill => "FillAndKill".toList
  | OrderType.FillOrKill => "FillOrKill".toList
  | OrderType.GoodForDay => "GoodForDay".toList
  | OrderType.Market => "Market".toList

/-- The line `A s t p q i`. -/
def addLine (s : Side) (t : OrderType) (p q i : Str) : Str :=
  'A' :: ' ' :: sideToken s ++ ' ' :: typeToken t ++ ' ' :: p ++ ' ' :: q ++ ' ' :: i

/-- The line `M i s p q`. -/
def modifyLine (i : Str) (s : Side) (p q : Str) : Str :=
  'M' :: ' ' :: i ++ ' ' :: sideToken s ++ ' ' :: p ++ ' ' :: q

/-- The line `C i`. -/
def cancelLine (i : Str) : Str := 'C' :: ' ' :: i

/-- A non-empty string of decimal digits. -/
def isDecimal (s : Str) : Bool := !s.isEmpty && s.all isDigit

/-! ## The matching engine

`Orderbook.h` is not among the sources. The engine below follows the
component design of the specification (sections 3 and 4): price levels kept
in price order with a first-in first-out queue each, an order index, the
admission rules of the five order types and the matching loop. Trades are
results handed to the caller and not part of the book; the driver discards
them, and they are left out of the state. -/

/-- Modelled from the spec: `Order.fill(qty)` of `Orderbook.h`, which is
missing. It requires `qty ≤ remaining` (the `InvalidFillQuantity` case is the
violation of that requirement) and decrements the remaining quantity. -/
def Order.Fill (order : Order) (quantity : Quantity)
    (_h : quantity ≤ order.remainingQuantity_) : Order :=
  { order with remainingQuantity_ := order.remainingQuantity_ - quantity }

/-- Modelled from the spec: `Order.is_filled()` of `Orderbook.h`, which is
missing: true iff nothing remains. -/
def Order.IsFilled (order : Order) : Bool := order.remainingQuantity_ == 0

/-- Modelled from the spec: `OrderModify.to_order(original_type)` of
`Orderbook.h`, which is missing: a fresh order with the modify's id, side,
price and quantity and the supplied type. -/
def OrderModify.ToOrder (m : OrderModify) (type : OrderType) : Order :=
  Order.new type m.orderId_ m.side_ m.price_ m.quantity_

/-- Modelled from the spec: the price level of `Orderbook.h`, which is
missing: a price and the arrival-ordered queue of the orders resting at it.
A level never has an empty queue, so the queue is its front order and the
orders behind it. -/
structure Level where
  price : Price
  front : Order
  rest : List Order
  deriving DecidableEq, Repr

/-- The queue of a level, front first. -/
def Level.orders (l : Level) : List Order := l.front :: l.rest

/-- Modelled from the spec: the state of `Orderbook` (`Orderbook.h` is
missing): bid levels by descending price, ask levels by ascending price, and
the order index, which maps an id to the side and price where the order
rests (the position in the level is found by the id). -/
structure Orderbook where
  bids : List Level
  asks : List Level
  index : List (OrderId × Side × Price)
  deriving DecidableEq, Repr

/-- A freshly constructed book. -/
def Orderbook.fresh : Orderbook := { bids := [], asks := [], index := [] }

/-- The levels of one side. -/
def Orderbook.side (book : Orderbook) : Side → List Level
  | Side.Buy => book.bids
  | Side.Sell => book.asks

/-- The levels opposing an order of the given side. -/
def Orderbook.opposing (book : Orderbook) : Side → List Level
  | Side.Buy => book.asks
  | Side.Sell => book.bids

/-- Index lookup: the locator stored for an id. -/
def Orderbook.locate (book : Orderbook) (orderId : OrderId) : Option (Side × Price) :=
  (book.index.find? (fun e => e.1 == orderId)).map Prod.snd

/-- Existence check on the index. -/
def Orderbook.contains (book : Orderbook) (orderId : OrderId) : Bool :=
  (book.locate orderId).isSome

/-- The query `Size()`: the number of entries of the index. -/
def Orderbook.Size (book : Orderbook) : Nat := book.index.length

/-- Price `p` comes before price `q` on the given side: higher first for
bids, lower first for asks. -/
def goesBefore : Side → Price → Price → Bool
  | Side.Buy, p, q => decide (q < p)
  | Side.Sell, p, q => decide (p < q)

/-- Insert an order at the back of the queue of its price level, creating the
level at its place in the price order when it is absent. -/
def insertLevel (side : Side) (order : Order) : List Level → List Level
  | [] => [{ price := order.price_, front := order, rest := [] }]
  | l :: ls =>
    if l.price = order.price_ then { l with rest := l.rest ++ [order] } :: ls
    else if goesBefore side order.price_ l.price then
      { price := order.price_, front := order, rest := [] } :: l :: ls
    else l :: insertLevel side order ls

/-- Remove the order `orderId` from the level at `price`; the level is erased
when its queue becomes empty. -/
def removeLevel (price : Price) (orderId : OrderId) : List Level → List Level
  | [] => []
  | l :: ls =>
    if l.price = price then
      match l.orders.filter (fun o => o.orderId_ != orderId) with
      | [] => ls
      | o :: os => { l with front := o, rest := os } :: ls
    else l :: removeLevel price orderId ls

/-- Remove an id from the index. -/
def eraseIndex (orderId : OrderId) (index : List (OrderId × Side × Price)) :
    List (OrderId × Side × Price) :=
  index.filter (fun e => e.1 != orderId)

/-- Modelled from the spec: `Orderbook::CancelOrder` (`Orderbook.h` is
missing). An absent id is reported and nothing changes; otherwise the order
leaves its level (the level is erased when emptied) and the index. -/
def CancelOrder (book : Orderbook) (orderId : OrderId) : Orderbook :=
  match book.locate orderId with
  | none => book
  | some (Side.Buy, price) =>
    { book with bids := removeLevel price orderId book.bids,
                index := eraseIndex orderId book.index }
  | some (Side.Sell, price) =>
    { book with asks := removeLevel price orderId book.asks,
                index := eraseIndex orderId book.index }

/-- Replace or pop the front order of the best level after a fill: a filled
order leaves the level, and the level is erased when it was the last one. -/
def settleFront (l : Level) (ls : List Level) (filled : Order) : List Level :=
  if filled.IsFilled then
    match l.rest with
    | [] => ls
    | o :: os => { l with front := o, rest := os } :: ls
  else { l with front := filled } :: ls

/-- One iteration of the matching loop, `none` when the loop condition (both
sides non-empty and best bid price at or above best ask price) is false. The
front orders of the two best levels are filled by the smaller of their
remaining quantities; an order with nothing remaining leaves its level and the
index. -/
def matchStep (book : Orderbook) : Option Orderbook :=
  match book.bids, book.asks with
  | bl :: bs, al :: as =>
    if al.price ≤ bl.price then
      let bid := bl.front
      let ask := al.front
      let quantity := min bid.remainingQuantity_ ask.remainingQuantity_
      let bid1 := bid.Fill quantity (Nat.min_le_left _ _)
      let ask1 := ask.Fill quantity (Nat.min_le_right _ _)
      let index1 := if bid1.IsFilled then eraseIndex bid.orderId_ book.index else book.index
      let index2 := if ask1.IsFilled then eraseIndex ask.orderId_ index1 else index1
      some { bids := settleFront bl bs bid1, asks := settleFront al as ask1, index := index2 }
    else none
  | _, _ => none

/-- Number of orders resting in a list of levels. -/
def levelCount (ls : List Level) : Nat := (ls.map (fun l => l.orders.length)).sum

/-- Number of orders resting in the book. -/
def Orderbook.resting (book : Orderbook) : Nat := levelCount book.bids + levelCount book.asks

/-- Modelled from the spec: the matching loop `MatchOrders` (`Orderbook.h` is
missing). `fuel` bounds the iterations; every iteration removes an order, so
the number of resting orders is enough (`MatchOrders_done`). -/
def MatchOrders : Nat → Orderbook → Orderbook
  | 0, book => book
  | fuel + 1, book =>
    match matchStep book with
    | none => book
    | some book1 => MatchOrders fuel book1

/-- Aggregate remaining quantity of the opposing levels whose price crosses
`price` for an order of the given side. -/
def crossingLiquidity (book : Orderbook) (side : Side) (price : Price) : Quantity :=
  let crosses : Level → Bool := fun l =>
    match side with
    | Side.Buy => decide (l.price ≤ price)
    | Side.Sell => decide (price ≤ l.price)
  (((book.opposing side).filter crosses).map
    (fun l => (l.orders.map (fun o => o.remainingQuantity_)).sum)).sum

/-- The admission rule of an order type: `none` when the order is rejected,
otherwise the order to insert (a market order is repriced to the opposing
price that crosses all resting liquidity, the last opposing level). -/
def admission (book : Orderbook) (order : Order) : Option Order :=
  match order.orderType_ with
  | OrderType.GoodTillCancel => some order
  | OrderType.GoodForDay => some order
  | OrderType.FillAndKill => some order
  | OrderType.FillOrKill =>
    if order.remainingQuantity_ ≤ crossingLiquidity book order.side_ order.price_ then some order
    else none
  | OrderType.Market =>
    match (book.opposing order.side_).getLast? with
    | none => none
    | some l => some { order with price_ := l.price }

/-- Insert an accepted order into its level and the index. -/
def insertOrder (book : Orderbook) (order : Order) : Orderbook :=
  match order.side_ with
  | Side.Buy =>
    { book with bids := insertLevel Side.Buy order book.bids,
                index := book.index ++ [(order.orderId_, Side.Buy, order.price_)] }
  | Side.Sell =>
    { book with asks := insertLevel Side.Sell order book.asks,
                index := book.index ++ [(order.orderId_, Side.Sell, order.price_)] }

/-- The order types that never rest. -/
def forbidsResting : OrderType → Bool
  | OrderType.FillAndKill => true
  | OrderType.Market => true
  | _ => false

/-- Modelled from the spec: `Orderbook::AddOrder` (`Orderbook.h` is missing):
duplicate ids are rejected, the admission rule of the type is applied, an
accepted order is inserted and the matching loop runs, and what remains of an
order that may not rest is removed. -/
def AddOrder (book : Orderbook) (order : Order) : Orderbook :=
  if book.contains order.orderId_ then book
  else
    match admission book order with
    | none => book
    | some accepted =>
      let book1 := insertOrder book accepted
      let book2 := MatchOrders book1.resting book1
      if forbidsResting accepted.orderType_ && book2.contains accepted.orderId_ then
        CancelOrder book2 accepted.orderId_
      else book2

/-- The resting order an id stands for, through the index. -/
def Orderbook.lookup (book : Orderbook) (orderId : OrderId) : Option Order :=
  match book.locate orderId with
  | none => none
  | some (side, price) =>
    ((book.side side).filter (fun l => l.price == price)).head?.bind
      (fun l => l.orders.find? (fun o => o.orderId_ == orderId))

/-- Modelled from the spec: `Orderbook::ModifyOrder` (`Orderbook.h` is
missing): an absent id changes nothing; otherwise the type of the resting
order is kept, the order is cancelled and the replacement is added. -/
def ModifyOrder (book : Orderbook) (order : OrderModify) : Orderbook :=
  match book.lookup order.orderId_ with
  | none => book
  | some existing =>
    AddOrder (CancelOrder book order.orderId_) (order.ToOrder existing.orderType_)

/-- The modelled engine, as the driver sees it. -/
def engine : Engine Orderbook where
  AddOrder := AddOrder
  CancelOrder := CancelOrder
  ModifyOrder := ModifyOrder

/-- Descending (bids) or ascending (asks) price order, without repetition. -/
def priceOrdered (side : Side) (ls : List Level) : Prop :=
  (ls.map (fun l => l.price)).Pairwise (fun p q => goesBefore side p q = true)

/-- No crossed book: a side is empty or the best bid price is strictly below
the best ask price. -/
def NoCross (book : Orderbook) : Prop :=
  match book.bids, book.asks with
  | bl :: _, al :: _ => bl.price < al.price
  | _, _ => True

/-- The prices of a list of levels, in list order. -/
def levelPrices (ls : List Level) : List Price := ls.map (fun l => l.price)

/-- Both sides of the book are in price order: the first level of a side is
its best level. -/
def Orderbook.ordered (book : Orderbook) : Prop :=
  priceOrdered Side.Buy book.bids ∧ priceOrdered Side.Sell book.asks

/-- Every bid price is strictly below every ask price. -/
def Orderbook.separated (book : Orderbook) : Prop :=
  ∀ b ∈ levelPrices book.bids, ∀ a ∈ levelPrices book.asks, b < a

instance (book : Orderbook) : Decidable (NoCross book) := by
  unfold NoCross
  split <;> infer_instance

/-! ## Auxiliary facts -/

@[simp] theorem Res.bind_ok {α β : Type} (a : α) (f : α → Res β) : (Res.ok a).bind f = f a := rfl

@[simp] theorem Res.bind_throw {α β : Type} (e : Exn) (f : α → Res β) :
    (Res.throw e : Res α).bind f = Res.throw e := rfl

@[simp] theorem Res.bind_undefined {α β : Type} (f : α → Res β) :
    (Res.undefined : Res α).bind f = Res.undefined := rfl

@[simp] theorem Res.monad_bind {α β : Type} (r : Res α) (f : α → Res β) :
    (r >>= f) = r.bind f := rfl

theorem Res.bind_eq_ok {α β : Type} {r : Res α} {f : α → Res β} {b : β}
    (h : r.bind f = Res.ok b) : ∃ a, r = Res.ok a ∧ f a = Res.ok b := by
  cases r with
  | ok a => exact ⟨a, rfl, h⟩
  | throw e => simp at h
  | undefined => simp at h

theorem isDecimal_iff (s : Str) :
    isDecimal s = true ↔ s ≠ [] ∧ ∀ c ∈ s, isDigit c = true := by
  cases s <;> simp [isDecimal]

theorem takeWhile_digits {s : Str} (h : ∀ c ∈ s, isDigit c = true) :
    s.takeWhile isDigit = s :=
  List.takeWhile_eq_self_iff.mpr h

/-- On a non-empty digit string `from_chars` stores the value of the digits,
provided it fits the signed 64-bit range. -/
theorem from_chars_decimal {s : Str} (hs : isDecimal s = true) (hr : decVal s < 2 ^ 63)
    (value : Int) : from_chars s value = (decVal s : Int) := by
  obtain ⟨hne, hall⟩ := (isDecimal_iff s).mp hs
  cases s with
  | nil => exact absurd rfl hne
  | cons c cs =>
    have hc : isDigit c = true := hall c (List.mem_cons_self _ _)
    have hminus : (c == '-') = false := by
      rw [beq_eq_false_iff_ne]
      rintro rfl
      exact absurd hc (by decide)
    have htw : (c :: cs).takeWhile isDigit = c :: cs := takeWhile_digits hall
    have h1 : -(2 : Int) ^ 63 ≤ ((decVal (c :: cs) : Nat) : Int) := by
      have : (0 : Int) ≤ ((decVal (c :: cs) : Nat) : Int) := Int.ofNat_nonneg _
      omega
    have h2 : ((decVal (c :: cs) : Nat) : Int) < (2 : Int) ^ 63 := by
      have : ((2 ^ 63 : Nat) : Int) = (2 : Int) ^ 63 := by norm_num
      omega
    unfold from_chars
    simp only [hminus, Bool.false_eq_true, if_false, htw]
    rw [if_neg (List.cons_ne_nil _ _), if_pos ⟨h1, h2⟩]

/-- On a minus sign followed by digits `from_chars` stores the negated value,
provided it fits the signed 64-bit range. -/
theorem from_chars_negative {ds : Str} (hs : isDecimal ds = true) (hr : decVal ds ≤ 2 ^ 63)
    (value : Int) : from_chars ('-' :: ds) value = -(decVal ds : Int) := by
  obtain ⟨hne, hall⟩ := (isDecimal_iff ds).mp hs
  have htw : ds.takeWhile isDigit = ds := takeWhile_digits hall
  have h1 : -(2 : Int) ^ 63 ≤ -((decVal ds : Nat) : Int) := by
    have : ((2 ^ 63 : Nat) : Int) = (2 : Int) ^ 63 := by norm_num
    omega
  have h2 : -((decVal ds : Nat) : Int) < (2 : Int) ^ 63 := by
    have : (0 : Int) ≤ ((decVal ds : Nat) : Int) := Int.ofNat_nonneg _
    have : (0 : Int) < (2 : Int) ^ 63 := by norm_num
    omega
  unfold from_chars
  simp only [beq_self_eq_true, List.drop_one, List.tail_cons, if_true, htw]
  rw [if_neg hne, if_pos ⟨h1, h2⟩]

theorem ToNumber_decimal {s : Str} (hs : isDecimal s = true) (hr : decVal s < 2 ^ 32) :
    ToNumber s = Res.ok (decVal s) := by
  have hr63 : decVal s < 2 ^ 63 := lt_trans hr (by norm_num)
  simp only [ToNumber, from_chars_decimal hs hr63]
  have : ¬ ((decVal s : Int) < 0) := by omega
  simp only [this, if_false, Int.toNat_ofNat]
  rw [Nat.mod_eq_of_lt hr]

theorem ToNumber_lt {s : Str} {n : Nat} (h : ToNumber s = Res.ok n) : n < 2 ^ 32 := by
  unfold ToNumber at h
  simp only at h
  split at h
  · simp at h
  · injection h with h
    rw [← h]
    exact Nat.mod_lt _ (by norm_num)

theorem fields_ne_nil (d : Char) (s : Str) : fields d s ≠ [] := by
  cases s with
  | nil => simp [fields]
  | cons c cs =>
    unfold fields
    split
    · simp
    · split <;> simp

theorem fields_no_delim {d : Char} {s : Str} (h : d ∉ s) : fields d s = [s] := by
  induction s with
  | nil => rfl
  | cons c cs ih =>
    have hc : c ≠ d := fun e => h (e ▸ List.mem_cons_self _ _)
    have hcs : d ∉ cs := fun m => h (List.mem_cons_of_mem _ m)
    simp [fields, hc, ih hcs]

theorem fields_append {d : Char} {tok : Str} (h : d ∉ tok) (post : Str) :
    fields d (tok ++ d :: post) = tok :: fields d post := by
  induction tok with
  | nil => simp [fields]
  | cons c cs ih =>
    have hc : c ≠ d := fun e => h (e ▸ List.mem_cons_self _ _)
    have hcs : d ∉ cs := fun m => h (List.mem_cons_of_mem _ m)
    simp [fields, hc, ih hcs]

/-- What `findFrom` returns: `none` when the delimiter does not occur, and
otherwise the position of its first occurrence. -/
theorem findFrom_spec (d : Char) (rem : Str) (pos : Nat) :
    (findFrom d rem pos = none ∧ d ∉ rem) ∨
    ∃ pre post, rem = pre ++ d :: post ∧ d ∉ pre ∧
      findFrom d rem pos = some (pos + pre.length) := by
  induction rem generalizing pos with
  | nil => left; simp [findFrom]
  | cons c cs ih =>
    by_cases hc : c = d
    · right
      refine ⟨[], cs, by simp [hc], by simp, ?_⟩
      simp [findFrom, hc]
    · rcases ih (pos + 1) with ⟨h1, h2⟩ | ⟨pre, post, h1, h2, h3⟩
      · left
        refine ⟨by simp [findFrom, hc, h1], ?_⟩
        simp only [List.mem_cons, not_or]
        exact ⟨fun e => hc e.symm, h2⟩
      · right
        refine ⟨c :: pre, post, by simp [h1], ?_, ?_⟩
        · simp only [List.mem_cons, not_or]
          exact ⟨fun e => hc e.symm, h2⟩
        · simp only [findFrom, hc, if_false, h3, List.length_cons]
          congr 1
          omega

/-- The loop of `Split` computes the columns of the part of the string that
is still to be read, as soon as the fuel exceeds the length of that part; the
only exception is a string that begins with the delimiter. -/
theorem SplitLoop_eq_fields (str : Str) (d : Char) :
    ∀ (fuel start : Nat) (columns : List Str), start ≤ str.length →
      str.length - start < fuel →
      (start = 0 → ∀ c rest, str = c :: rest → c ≠ d) →
      SplitLoop str d fuel start columns = columns ++ fields d (str.drop start) := by
  intro fuel
  induction fuel with
  | zero => intro start columns _ h; omega
  | succ fuel ih =>
    intro start columns hle hfuel hhead
    unfold SplitLoop
    rcases findFrom_spec d (str.drop start) start with ⟨h1, h2⟩ | ⟨pre, post, h1, h2, h3⟩
    · simp only [find, h1, substrFrom, fields_no_delim h2]
    · have hlen : str.length - start = pre.length + (post.length + 1) := by
        have := congrArg List.length h1
        simpa using this
      have hne : start + pre.length ≠ 0 := by
        intro h0
        have hs : start = 0 := by omega
        have hp : pre = [] := List.length_eq_zero.mp (by omega)
        subst hs
        subst hp
        simp only [List.drop_zero, List.nil_append] at h1
        exact hhead rfl d post h1 rfl
      have hdrop : str.drop (start + pre.length + 1) = post := by
        have : str.drop (start + pre.length + 1) = (str.drop start).drop (pre.length + 1) := by
          rw [List.drop_drop, Nat.add_assoc]
        rw [this, h1]
        simp [List.drop_append]
      have hsub : substr str start (start + pre.length - start) = pre := by
        simp [substr, h1]
      simp only [find, h3, hne, if_false, hsub]
      rw [ih (start + pre.length + 1) (columns ++ [pre]) (by omega) (by omega)
        (fun h => by omega), hdrop, h1, fields_append h2]
      simp

theorem Split_eq_fields {str : Str} {d : Char} (h : ∀ c rest, str = c :: rest → c ≠ d) :
    Split str d = fields d str := by
  unfold Split
  rw [SplitLoop_eq_fields str d (str.length + 1) 0 [] (Nat.zero_le _) (by omega) (fun _ => h)]
  simp

theorem digit_ne_space {s : Str} (h : isDecimal s = true) : ' ' ∉ s := by
  intro hm
  exact absurd (((isDecimal_iff s).mp h).2 ' ' hm) (by decide)

theorem sideToken_no_space (s : Side) : ' ' ∉ sideToken s := by
  cases s <;> decide

theorem typeToken_no_space (t : OrderType) : ' ' ∉ typeToken t := by
  cases t <;> decide

theorem ParseSide_token (s : Side) : ParseSide (sideToken s) = Res.ok s := by
  cases s <;> decide

theorem ParseOrderType_token (t : OrderType) : ParseOrderType (typeToken t) = Res.ok t := by
  cases t <;> decide

theorem fields_cons_delim {d c : Char} (h : c ≠ d) (post : Str) :
    fields d (c :: d :: post) = [c] :: fields d post := by
  have : d ∉ [c] := by simpa using fun e => h e.symm
  exact fields_append this post

theorem isDecimal_ne_nil {s : Str} (h : isDecimal s = true) : s ≠ [] :=
  ((isDecimal_iff s).mp h).1

theorem ParsePrice_decimal {s : Str} (hs : isDecimal s = true) (hr : decVal s < 2 ^ 32) :
    ParsePrice s = Res.ok (decVal s) := by
  simp only [ParsePrice, isDecimal_ne_nil hs, if_false, ToNumber_decimal hs hr]

theorem ParseQuantity_decimal {s : Str} (hs : isDecimal s = true) (hr : decVal s < 2 ^ 32) :
    ParseQuantity s = Res.ok (decVal s) := by
  simp only [ParseQuantity, isDecimal_ne_nil hs, if_false, ToNumber_decimal hs hr]

theorem ParseOrderId_decimal {s : Str} (hs : isDecimal s = true) (hr : decVal s < 2 ^ 32) :
    ParseOrderId s = Res.ok (decVal s) := by
  simp only [ParseOrderId, isDecimal_ne_nil hs, if_false, ToNumber_decimal hs hr]

theorem Split_addLine (s : Side) (t : OrderType) {p q i : Str} (hp : isDecimal p = true)
    (hq : isDecimal q = true) (hi : isDecimal i = true) :
    Split (addLine s t p q i) ' ' = [['A'], sideToken s, typeToken t, p, q, i] := by
  have h0 : ∀ c rest, addLine s t p q i = c :: rest → c ≠ ' ' := by
    intro c rest h
    simp only [addLine, List.cons_append, List.cons.injEq] at h
    rw [← h.1]
    decide
  rw [Split_eq_fields h0]
  simp only [addLine, List.cons_append, List.append_assoc]
  rw [fields_cons_delim (by decide), fields_append (sideToken_no_space s),
    fields_append (typeToken_no_space t), fields_append (digit_ne_space hp),
    fields_append (digit_ne_space hq), fields_no_delim (digit_ne_space hi)]

theorem Split_modifyLine (s : Side) {p q i : Str} (hp : isDecimal p = true)
    (hq : isDecimal q = true) (hi : isDecimal i = true) :
    Split (modifyLine i s p q) ' ' = [['M'], i, sideToken s, p, q] := by
  have h0 : ∀ c rest, modifyLine i s p q = c :: rest → c ≠ ' ' := by
    intro c rest h
    simp only [modifyLine, List.cons_append, List.cons.injEq] at h
    rw [← h.1]
    decide
  rw [Split_eq_fields h0]
  simp only [modifyLine, List.cons_append, List.append_assoc]
  rw [fields_cons_delim (by decide), fields_append (digit_ne_space hi),
    fields_append (sideToken_no_space s), fields_append (digit_ne_space hp),
    fields_no_delim (digit_ne_space hq)]

theorem Split_cancelLine {i : Str} (hi : isDecimal i = true) :
    Split (cancelLine i) ' ' = [['C'], i] := by
  have h0 : ∀ c rest, cancelLine i = c :: rest → c ≠ ' ' := by
    intro c rest h
    simp only [cancelLine, List.cons.injEq] at h
    rw [← h.1]
    decide
  rw [Split_eq_fields h0]
  simp only [cancelLine]
  rw [fields_cons_delim (by decide), fields_no_delim (digit_ne_space hi)]

theorem TryParse_addLine (s : Side) (t : OrderType) {p q i : Str} (uninit : Information)
    (hp : isDecimal p = true) (hq : isDecimal q = true) (hi : isDecimal i = true)
    (hpv : decVal p < 2 ^ 32) (hqv : decVal q < 2 ^ 32) (hiv : decVal i < 2 ^ 32) :
    TryParseInformation (addLine s t p q i) uninit =
      Res.ok (true, { type_ := ActionType.Add, orderType_ := t, side_ := s,
                      price_ := decVal p, quantity_ := decVal q, orderId_ := decVal i }) := by
  have hsplit := Split_addLine s t hp hq hi
  simp only [addLine, List.cons_append] at hsplit
  simp only [TryParseInformation, addLine, List.cons_append, hsplit, if_true, index,
    List.get?, Res.monad_bind, Res.bind_ok, ParseSide_token, ParseOrderType_token,
    ParsePrice_decimal hp hpv, ParseQuantity_decimal hq hqv, ParseOrderId_decimal hi hiv]

theorem TryParse_modifyLine (s : Side) {p q i : Str} (uninit : Information)
    (hp : isDecimal p = true) (hq : isDecimal q = true) (hi : isDecimal i = true)
    (hpv : decVal p < 2 ^ 32) (hqv : decVal q < 2 ^ 32) (hiv : decVal i < 2 ^ 32) :
    TryParseInformation (modifyLine i s p q) uninit =
      Res.ok (true, { uninit with type_ := ActionType.Modify, orderId_ := decVal i, side_ := s,
                                  price_ := decVal p, quantity_ := decVal q }) := by
  have hsplit := Split_modifyLine s hp hq hi
  simp only [modifyLine, List.cons_append] at hsplit
  simp only [TryParseInformation, modifyLine, List.cons_append, hsplit, if_true, index,
    List.get?, Res.monad_bind, Res.bind_ok, ParseSide_token,
    ParsePrice_decimal hp hpv, ParseQuantity_decimal hq hqv, ParseOrderId_decimal hi hiv]
  simp

theorem TryParse_cancelLine {i : Str} (uninit : Information)
    (hi : isDecimal i = true) (hiv : decVal i < 2 ^ 32) :
    TryParseInformation (cancelLine i) uninit =
      Res.ok (true, { uninit with type_ := ActionType.Cancel, orderId_ := decVal i }) := by
  have hsplit := Split_cancelLine hi
  simp only [cancelLine] at hsplit
  simp only [TryParseInformation, cancelLine, hsplit, if_true, index,
    List.get?, Res.monad_bind, Res.bind_ok, ParseOrderId_decimal hi hiv]
  simp

/-- A successfully parsed Add command carries a quantity produced by
`ToNumber`, hence below `2 ^ 32`. -/
theorem TryParse_quantity_bound {line : Str} {uninit a : Information}
    (h : TryParseInformation line uninit = Res.ok (true, a))
    (hadd : a.type_ = ActionType.Add) : a.quantity_ < 2 ^ 32 := by
  cases line with
  | nil => simp [TryParseInformation] at h
  | cons value rest =>
    simp only [TryParseInformation, Res.monad_bind] at h
    split at h
    · obtain ⟨side, -, h⟩ := Res.bind_eq_ok h
      obtain ⟨ot, -, h⟩ := Res.bind_eq_ok h
      obtain ⟨price, -, h⟩ := Res.bind_eq_ok h
      obtain ⟨quantity, hq, h⟩ := Res.bind_eq_ok h
      obtain ⟨orderId, -, h⟩ := Res.bind_eq_ok h
      obtain ⟨col, -, hq⟩ := Res.bind_eq_ok hq
      simp only [Res.ok.injEq, Prod.mk.injEq, true_and] at h
      rw [← h]
      simp only [ParseQuantity] at hq
      split at hq
      · simp at hq
      · exact ToNumber_lt hq
    · split at h
      · obtain ⟨orderId, -, h⟩ := Res.bind_eq_ok h
        obtain ⟨side, -, h⟩ := Res.bind_eq_ok h
        obtain ⟨price, -, h⟩ := Res.bind_eq_ok h
        obtain ⟨quantity, -, h⟩ := Res.bind_eq_ok h
        simp only [Res.ok.injEq, Prod.mk.injEq, true_and] at h
        rw [← h] at hadd
        simp at hadd
      · split at h
        · obtain ⟨orderId, -, h⟩ := Res.bind_eq_ok h
          simp only [Res.ok.injEq, Prod.mk.injEq, true_and] at h
          rw [← h] at hadd
          simp at hadd
        · simp at h

theorem GetActionsLoop_all (P : Information → Prop) (uninit : Information)
    (hP : ∀ line a, TryParseInformation line uninit = Res.ok (true, a) → P a) :
    ∀ (file : List Str) (acc actions : List Information), (∀ a ∈ acc, P a) →
      GetActionsLoop uninit file acc = Res.ok actions → ∀ a ∈ actions, P a := by
  intro file
  induction file with
  | nil =>
    intro acc actions hacc h
    simp only [GetActionsLoop, Res.ok.injEq] at h
    rw [← h]
    exact hacc
  | cons line rest ih =>
    intro acc actions hacc h
    unfold GetActionsLoop at h
    split at h
    · exact ih acc actions hacc h
    · split at h
      · rename_i action heq
        refine ih _ actions ?_ h
        intro a ha
        rcases List.mem_append.mp ha with ha | ha
        · exact hacc a ha
        · rw [List.mem_singleton.mp ha]
          exact hP line action heq
      · exact ih acc actions hacc h
      · simp at h
      · simp at h

theorem GetActionsLoop_skip (uninit : Information) {l : Str} (hl : skipLine l = true)
    (post : List Str) :
    ∀ (pre : List Str) (acc : List Information),
      GetActionsLoop uninit (pre ++ l :: post) acc = GetActionsLoop uninit (pre ++ post) acc := by
  intro pre
  induction pre with
  | nil =>
    intro acc
    simp only [List.nil_append]
    rw [GetActionsLoop, if_pos hl]
  | cons line rest ih =>
    intro acc
    simp only [List.cons_append]
    unfold GetActionsLoop
    split
    · exact ih acc
    · split
      · exact ih _
      · exact ih _
      · rfl
      · rfl

/-! ## The claims -/

/-- C1 (the code departs from the claim): a price, quantity or order-id column
that is not a decimal integer does not make the parser raise. `ToNumber`
discards the result of `from_chars`, so the column `abc` reads as `0` and
`12x` as `12`, and the line yields a command. -/
theorem C1_bad_integer_yields_command (uninit : Information) :
    TryParseInformation "C abc".toList uninit =
      Res.ok (true, { uninit with type_ := ActionType.Cancel, orderId_ := 0 }) ∧
    TryParseInformation "C 12x".toList uninit =
      Res.ok (true, { uninit with type_ := ActionType.Cancel, orderId_ := 12 }) ∧
    GetActionsOnly uninit ["A B GoodTillCancel abc 12x 7y".toList] =
      Res.ok [{ type_ := ActionType.Add, orderType_ := OrderType.GoodTillCancel,
                side_ := Side.Buy, price_ := 0, quantity_ := 12, orderId_ := 7 }] ∧
    (GetActionsOnly uninit ["C abc".toList]).raises = false :=
  ⟨rfl, rfl, rfl, rfl⟩

/-- C2 (the code departs from the claim): a line with too few columns does not
make `TryParseInformation` raise; the unchecked `values[k]` reads past the end
of the column vector, which is undefined behaviour and no exception. -/
theorem C2_missing_field_reads_past_end (uninit : Information) :
    Split "C".toList ' ' = ["C".toList] ∧
    TryParseInformation "C".toList uninit = Res.undefined ∧
    TryParseInformation "M 1 B 100".toList uninit = Res.undefined ∧
    TryParseInformation "A B GoodTillCancel 100 10".toList uninit = Res.undefined ∧
    (TryParseInformation "C".toList uninit).raises = false ∧
    GetActionsOnly uninit ["C".toList] = Res.undefined :=
  ⟨rfl, rfl, rfl, rfl, rfl, rfl⟩

/-- C3: `ParseSide` raises exactly when its argument is neither `B` nor `S`,
and returns Buy for `B` and Sell for `S`; `ParseOrderType` raises exactly when
its argument is none of the five type names, and returns the type of that name
otherwise. -/
theorem C3_side_and_type_tokens :
    (∀ str : Str, (ParseSide str).raises = true ↔ (str ≠ "B".toList ∧ str ≠ "S".toList)) ∧
    ParseSide "B".toList = Res.ok Side.Buy ∧
    ParseSide "S".toList = Res.ok Side.Sell ∧
    (∀ str : Str, (ParseOrderType str).raises = true ↔
      str ∉ ["FillAndKill".toList, "GoodTillCancel".toList, "GoodForDay".toList,
             "FillOrKill".toList, "Market".toList]) ∧
    ParseOrderType "FillAndKill".toList = Res.ok OrderType.FillAndKill ∧
    ParseOrderType "GoodTillCancel".toList = Res.ok OrderType.GoodTillCancel ∧
    ParseOrderType "GoodForDay".toList = Res.ok OrderType.GoodForDay ∧
    ParseOrderType "FillOrKill".toList = Res.ok OrderType.FillOrKill ∧
    ParseOrderType "Market".toList = Res.ok OrderType.Market := by
  refine ⟨?_, rfl, rfl, ?_, rfl, rfl, rfl, rfl, rfl⟩
  · intro str
    unfold ParseSide
    by_cases h1 : str = "B".toList
    · subst h1
      decide
    · by_cases h2 : str = "S".toList
      · subst h2
        decide
      · rw [if_neg h1, if_neg h2]
        exact ⟨fun _ => ⟨h1, h2⟩, fun _ => rfl⟩
  · intro str
    unfold ParseOrderType
    by_cases h1 : str = "FillAndKill".toList
    · subst h1
      decide
    · by_cases h2 : str = "GoodTillCancel".toList
      · subst h2
        decide
      · by_cases h3 : str = "GoodForDay".toList
        · subst h3
          decide
        · by_cases h4 : str = "FillOrKill".toList
          · subst h4
            decide
          · by_cases h5 : str = "Market".toList
            · subst h5
              decide
            · rw [if_neg h1, if_neg h2, if_neg h3, if_neg h4, if_neg h5]
              refine ⟨fun _ hm => ?_, fun _ => rfl⟩
              simp only [List.mem_cons, List.mem_singleton, List.not_mem_nil, or_false] at hm
              rcases hm with h | h | h | h | h <;> contradiction

/-- C4 (the code departs from the claim): the parser does not reject an Add
line whose quantity column is `0`. `ParseQuantity` rejects an empty column and
`ToNumber` a value below zero, but zero passes both checks, so the line
`A B GoodTillCancel 100 0 1` becomes an Add command with quantity `0`, whatever
the local record held before; hence not every Add command returned by
`GetActionsOnly` has a positive quantity. -/
theorem C4_zero_quantity_accepted :
    ParseQuantity "0".toList = Res.ok 0 ∧
    (∀ uninit : Information,
      TryParseInformation "A B GoodTillCancel 100 0 1".toList uninit =
        Res.ok (true, { type_ := ActionType.Add, orderType_ := OrderType.GoodTillCancel,
                        side_ := Side.Buy, price_ := 100, quantity_ := 0, orderId_ := 1 })) ∧
    (∀ uninit : Information,
      GetActionsOnly uninit ["A B GoodTillCancel 100 0 1".toList] =
        Res.ok [{ type_ := ActionType.Add, orderType_ := OrderType.GoodTillCancel,
                  side_ := Side.Buy, price_ := 100, quantity_ := 0, orderId_ := 1 }]) ∧
    ¬ (∀ (uninit : Information) (file : List Str) (actions : List Information),
        GetActionsOnly uninit file = Res.ok actions →
        ∀ a ∈ actions, a.type_ = ActionType.Add → 0 < a.quantity_) := by
  refine ⟨rfl, fun _ => rfl, fun _ => rfl, ?_⟩
  intro h
  have := h blank ["A B GoodTillCancel 100 0 1".toList]
    [{ type_ := ActionType.Add, orderType_ := OrderType.GoodTillCancel,
       side_ := Side.Buy, price_ := 100, quantity_ := 0, orderId_ := 1 }] rfl _
    (List.mem_singleton.mpr rfl) rfl
  exact absurd this (by decide)

/-- C5: when the parser raises on some line of the scenario file, `main`
returns the failure status `1`, the engine is left exactly as it was
constructed (it receives no call for that line or any later one), and nothing
is undone. -/
theorem C5_stop_on_failure {σ : Type} (E : Engine σ) (uninit : Information) (file : List Str)
    (orderbook : σ) (e : Exn) (h : GetActionsOnly uninit file = Res.throw e) :
    main E 2 true uninit file orderbook =
      some { exitCode := 1, orderbook := orderbook, printed := false } := by
  simp [main, h]

theorem C5_stop_on_failure_witness :
    GetActionsOnly blank ["A B GoodTillCancel 100 10 1".toList, "A X".toList, "C 1".toList] =
      Res.throw (Exn.logic_error "Unknown Side") ∧
    main recorder 2 true blank
      ["A B GoodTillCancel 100 10 1".toList, "A X".toList, "C 1".toList] [] =
      some { exitCode := 1, orderbook := [], printed := false } :=
  ⟨rfl, C5_stop_on_failure recorder blank _ [] _ rfl⟩

/-- C6: for a side `s`, a type `t` and non-empty digit strings `p`, `q`, `i`
denoting integers below `2 ^ 31`, the line `A s t p q i` parses to the Add
command with that side, type, price, quantity and order id; `M i s p q` parses
to a Modify command with id `i`, side `s`, price `p`, quantity `q`; and `C i`
parses to a Cancel command with id `i`. Fields a shape does not assign keep
their previous content. -/
theorem C6_field_mapping (s : Side) (t : OrderType) (p q i : Str) (uninit : Information)
    (hp : isDecimal p = true) (hq : isDecimal q = true) (hi : isDecimal i = true)
    (hpv : decVal p < 2 ^ 31) (hqv : decVal q < 2 ^ 31) (hiv : decVal i < 2 ^ 31) :
    TryParseInformation (addLine s t p q i) uninit =
      Res.ok (true, { type_ := ActionType.Add, orderType_ := t, side_ := s,
                      price_ := decVal p, quantity_ := decVal q, orderId_ := decVal i }) ∧
    TryParseInformation (modifyLine i s p q) uninit =
      Res.ok (true, { uninit with type_ := ActionType.Modify, orderId_ := decVal i, side_ := s,
                                  price_ := decVal p, quantity_ := decVal q }) ∧
    TryParseInformation (cancelLine i) uninit =
      Res.ok (true, { uninit with type_ := ActionType.Cancel, orderId_ := decVal i }) := by
  have hpv2 : decVal p < 2 ^ 32 := lt_trans hpv (by norm_num)
  have hqv2 : decVal q < 2 ^ 32 := lt_trans hqv (by norm_num)
  have hiv2 : decVal i < 2 ^ 32 := lt_trans hiv (by norm_num)
  exact ⟨TryParse_addLine s t uninit hp hq hi hpv2 hqv2 hiv2,
    TryParse_modifyLine s uninit hp hq hi hpv2 hqv2 hiv2,
    TryParse_cancelLine uninit hi hiv2⟩

theorem C6_field_mapping_witness :
    addLine Side.Buy OrderType.GoodTillCancel "100".toList "10".toList "1".toList =
      "A B GoodTillCancel 100 10 1".toList ∧
    TryParseInformation "A B GoodTillCancel 100 10 1".toList blank =
      Res.ok (true, ⟨ActionType.Add, OrderType.GoodTillCancel, Side.Buy, 100, 10, 1⟩) :=
  ⟨rfl, (C6_field_mapping Side.Buy OrderType.GoodTillCancel "100".toList "10".toList "1".toList
    blank (by decide) (by decide) (by decide) (by decide) (by decide) (by decide)).1⟩

/-- C7: an empty line, a line beginning with `#` and a line beginning with `R`
produce no command and no error, whatever follows the first character, and
inserting or removing such a line anywhere in the file leaves the result of
`GetActionsOnly` unchanged. -/
theorem C7_skipped_lines (uninit : Information) (l : Str)
    (hl : l = [] ∨ (∃ rest, l = '#' :: rest) ∨ (∃ rest, l = 'R' :: rest)) :
    GetActionsOnly uninit [l] = Res.ok [] ∧
    ∀ pre post : List Str,
      GetActionsOnly uninit (pre ++ l :: post) = GetActionsOnly uninit (pre ++ post) := by
  have hs : skipLine l = true := by
    rcases hl with h | ⟨rest, h⟩ | ⟨rest, h⟩ <;> subst h <;> rfl
  refine ⟨?_, fun pre post => GetActionsLoop_skip uninit hs post pre []⟩
  have := GetActionsLoop_skip uninit hs [] [] []
  simpa [GetActionsOnly, GetActionsLoop] using this

theorem C7_skipped_lines_witness :
    GetActionsOnly blank ["R A B GoodTillCancel x".toList] = Res.ok [] ∧
    ∀ pre post : List Str,
      GetActionsOnly blank (pre ++ "R A B GoodTillCancel x".toList :: post) =
        GetActionsOnly blank (pre ++ post) :=
  C7_skipped_lines blank "R A B GoodTillCancel x".toList (Or.inr (Or.inr ⟨_, rfl⟩))

/-- C8: on a column made of `-` followed by decimal digits that denote a
non-zero value within the signed 64-bit range, `ToNumber` raises
`Value is below zero.`, and so do `ParsePrice`, `ParseQuantity` and
`ParseOrderId`. -/
theorem C8_negative_rejected (ds : Str) (hd : isDecimal ds = true) (hpos : 0 < decVal ds)
    (hrange : decVal ds ≤ 2 ^ 63) :
    ToNumber ('-' :: ds) = Res.throw (Exn.logic_error "Value is below zero.") ∧
    ParsePrice ('-' :: ds) = Res.throw (Exn.logic_error "Value is below zero.") ∧
    ParseQuantity ('-' :: ds) = Res.throw (Exn.logic_error "Value is below zero.") ∧
    ParseOrderId ('-' :: ds) = Res.throw (Exn.logic_error "Value is below zero.") := by
  have h : ToNumber ('-' :: ds) = Res.throw (Exn.logic_error "Value is below zero.") := by
    simp only [ToNumber, from_chars_negative hd hrange]
    have : -((decVal ds : Nat) : Int) < 0 := by omega
    simp only [this, if_true]
  refine ⟨h, ?_, ?_, ?_⟩
  · simp only [ParsePrice, List.cons_ne_nil, if_false, h]
  · simp only [ParseQuantity, List.cons_ne_nil, if_false, h]
  · simp only [ParseOrderId, List.cons_ne_nil, if_false, h]

theorem C8_negative_rejected_witness :
    ToNumber ('-' :: "5".toList) = Res.throw (Exn.logic_error "Value is below zero.") ∧
    ParsePrice ('-' :: "5".toList) = Res.throw (Exn.logic_error "Value is below zero.") ∧
    ParseQuantity ('-' :: "5".toList) = Res.throw (Exn.logic_error "Value is below zero.") ∧
    ParseOrderId ('-' :: "5".toList) = Res.throw (Exn.logic_error "Value is below zero.") :=
  C8_negative_rejected "5".toList (by decide) (by decide) (by decide)

theorem dispatch_recorder (actions : List Information) :
    ∀ calls : List EngineCall, dispatch recorder actions calls = calls ++ actions.map callOf := by
  induction actions with
  | nil => intro calls; simp [dispatch]
  | cons a rest ih =>
    intro calls
    unfold dispatch
    cases hty : a.type_ <;> simp only [ih, callOf, hty, List.map_cons] <;> simp [recorder]

theorem dispatch_fold {σ : Type} (E : Engine σ) (actions : List Information) :
    ∀ book : σ, dispatch E actions book = (actions.map callOf).foldl (applyCall E) book := by
  induction actions with
  | nil => intro book; rfl
  | cons a rest ih =>
    intro book
    unfold dispatch
    cases hty : a.type_ <;> simp [ih, callOf, hty, applyCall]

/-- C9: when the file parses to the command list `actions`, `main` makes
exactly one engine call per command, in list order: `AddOrder` with the order
built from (type, id, side, price, quantity) for an Add, `CancelOrder` with the
id for a Cancel, `ModifyOrder` with (id, side, price, quantity) for a Modify.
The call made for a Modify does not depend on the order-type field of the
command, and on any engine the final state is the one these calls produce when
applied in order. -/
theorem C9_dispatch (uninit : Information) (file : List Str) (actions : List Information)
    (h : GetActionsOnly uninit file = Res.ok actions) :
    main recorder 2 true uninit file [] =
      some { exitCode := 0, orderbook := actions.map callOf, printed := true } ∧
    (dispatch recorder actions []).length = actions.length ∧
    (∀ (a : Information) (t : OrderType) (pre post : List Information),
      a.type_ = ActionType.Modify →
      dispatch recorder (pre ++ { a with orderType_ := t } :: post) [] =
        dispatch recorder (pre ++ a :: post) []) ∧
    (∀ {σ : Type} (E : Engine σ) (book : σ),
      main E 2 true uninit file book =
        some { exitCode := 0, orderbook := (actions.map callOf).foldl (applyCall E) book,
               printed := true }) := by
  refine ⟨?_, ?_, ?_, ?_⟩
  · simp [main, h, dispatch_recorder]
  · simp [dispatch_recorder]
  · intro a t pre post hty
    simp [dispatch_recorder, callOf, hty]
  · intro σ E book
    simp [main, h, dispatch_fold]

theorem C9_dispatch_witness :
    GetActionsOnly blank
      ["A B GoodTillCancel 100 10 1".toList, "M 1 S 101 7".toList, "C 1".toList] =
      Res.ok [⟨ActionType.Add, OrderType.GoodTillCancel, Side.Buy, 100, 10, 1⟩,
              ⟨ActionType.Modify, OrderType.GoodTillCancel, Side.Sell, 101, 7, 1⟩,
              ⟨ActionType.Cancel, OrderType.GoodTillCancel, Side.Buy, 0, 0, 1⟩] ∧
    main recorder 2 true blank
      ["A B GoodTillCancel 100 10 1".toList, "M 1 S 101 7".toList, "C 1".toList] [] =
      some { exitCode := 0,
             orderbook := [EngineCall.AddOrder
                             (Order.new OrderType.GoodTillCancel 1 Side.Buy 100 10),
                           EngineCall.ModifyOrder ⟨1, Side.Sell, 101, 7⟩,
                           EngineCall.CancelOrder 1],
             printed := true } :=
  ⟨rfl, (C9_dispatch blank
    ["A B GoodTillCancel 100 10 1".toList, "M 1 S 101 7".toList, "C 1".toList] _ rfl).1⟩

/-! ## The matching engine keeps the book uncrossed -/

theorem goesBefore_trans {side : Side} {a b c : Price} (h1 : goesBefore side a b = true)
    (h2 : goesBefore side b c = true) : goesBefore side a c = true := by
  cases side <;> simp only [goesBefore, decide_eq_true_eq] at h1 h2 ⊢
  · exact Nat.lt_trans h2 h1
  · exact Nat.lt_trans h1 h2

theorem goesBefore_of_not {side : Side} {a b : Price} (hne : b ≠ a)
    (h : ¬ goesBefore side a b = true) : goesBefore side b a = true := by
  cases side <;> simp only [goesBefore, decide_eq_true_eq] at h ⊢
  · exact Nat.lt_of_le_of_ne (Nat.le_of_not_lt h) (Ne.symm hne)
  · exact Nat.lt_of_le_of_ne (Nat.le_of_not_lt h) hne

theorem insertLevel_prices (side : Side) (order : Order) (ls : List Level) :
    ∀ p ∈ levelPrices (insertLevel side order ls), p = order.price_ ∨ p ∈ levelPrices ls := by
  induction ls with
  | nil =>
    intro p hp
    simp only [insertLevel, levelPrices, List.map_cons, List.map_nil, List.mem_singleton] at hp
    exact Or.inl hp
  | cons l ls ih =>
    intro p hp
    unfold insertLevel at hp
    split at hp
    · right
      simpa [levelPrices] using hp
    · split at hp
      · simp only [levelPrices, List.map_cons, List.mem_cons] at hp
        rcases hp with hp | hp | hp
        · exact Or.inl hp
        · right; simp [levelPrices, hp]
        · right
          simp only [levelPrices, List.map_cons, List.mem_cons]
          exact Or.inr hp
      · simp only [levelPrices, List.map_cons, List.mem_cons] at hp
        rcases hp with hp | hp
        · right; simp [levelPrices, hp]
        · rcases ih p hp with h | h
          · exact Or.inl h
          · right
            simp only [levelPrices, List.map_cons, List.mem_cons]
            exact Or.inr h

theorem insertLevel_ordered (side : Side) (order : Order) (ls : List Level)
    (h : priceOrdered side ls) : priceOrdered side (insertLevel side order ls) := by
  induction ls with
  | nil => simp [insertLevel, priceOrdered]
  | cons l ls ih =>
    have hl : ∀ p ∈ levelPrices ls, goesBefore side l.price p = true := by
      have := (List.pairwise_cons.mp h).1
      exact this
    have hls : priceOrdered side ls := (List.pairwise_cons.mp h).2
    unfold insertLevel
    split
    · exact h
    · rename_i hne
      split
      · rename_i hgb
        refine List.pairwise_cons.mpr ⟨?_, h⟩
        intro p hp
        simp only [List.map_cons, List.mem_cons] at hp
        rcases hp with hp | hp
        · rw [hp]; exact hgb
        · exact goesBefore_trans hgb (hl p hp)
      · rename_i hgb
        refine List.pairwise_cons.mpr ⟨?_, ih hls⟩
        intro p hp
        rcases insertLevel_prices side order ls p hp with hp | hp
        · rw [hp]
          exact goesBefore_of_not hne hgb
        · exact hl p hp

theorem removeLevel_sublist (price : Price) (orderId : OrderId) (ls : List Level) :
    List.Sublist (levelPrices (removeLevel price orderId ls)) (levelPrices ls) := by
  induction ls with
  | nil => exact List.Sublist.refl _
  | cons l ls ih =>
    unfold removeLevel
    split
    · split
      · exact List.Sublist.cons _ (List.Sublist.refl _)
      · exact List.Sublist.refl _
    · exact List.Sublist.cons₂ _ ih

theorem settleFront_sublist (l : Level) (ls : List Level) (filled : Order) :
    List.Sublist (levelPrices (settleFront l ls filled)) (levelPrices (l :: ls)) := by
  unfold settleFront
  split
  · split
    · exact List.Sublist.cons _ (List.Sublist.refl _)
    · exact List.Sublist.refl _
  · exact List.Sublist.refl _

theorem priceOrdered_sublist {side : Side} {ls ms : List Level}
    (hsub : List.Sublist (levelPrices ls) (levelPrices ms)) (h : priceOrdered side ms) :
    priceOrdered side ls :=
  List.Pairwise.sublist hsub h

theorem levelCount_cons (l : Level) (ls : List Level) :
    levelCount (l :: ls) = l.rest.length + 1 + levelCount ls := by
  simp [levelCount, Level.orders]

theorem levelCount_eq_zero {ls : List Level} (h : levelCount ls = 0) : ls = [] := by
  cases ls with
  | nil => rfl
  | cons l ls =>
    rw [levelCount_cons] at h
    omega

theorem settleFront_count (l : Level) (ls : List Level) (filled : Order) :
    levelCount (settleFront l ls filled) + (if filled.IsFilled = true then 1 else 0) =
      levelCount (l :: ls) := by
  unfold settleFront
  by_cases hf : filled.IsFilled = true
  · simp only [hf, if_true]
    cases hr : l.rest with
    | nil =>
      simp only [levelCount_cons, hr, List.length_nil]
      omega
    | cons o os =>
      simp only [levelCount_cons, hr, List.length_cons]
      omega
  · simp only [hf, if_false]
    simp [levelCount_cons]

/-- Filling the two front orders by the smaller remaining quantity exhausts at
least one of them. -/
theorem fill_min_filled (bid ask : Order) :
    (bid.Fill (min bid.remainingQuantity_ ask.remainingQuantity_)
        (Nat.min_le_left _ _)).IsFilled = true ∨
    (ask.Fill (min bid.remainingQuantity_ ask.remainingQuantity_)
        (Nat.min_le_right _ _)).IsFilled = true := by
  simp only [Order.Fill, Order.IsFilled, beq_iff_eq]
  rcases Nat.le_total bid.remainingQuantity_ ask.remainingQuantity_ with h | h
  · left
    rw [Nat.min_eq_left h]
    exact Nat.sub_self _
  · right
    rw [Nat.min_eq_right h]
    exact Nat.sub_self _

/-- Every iteration of the matching loop removes an order from the book. -/
theorem matchStep_resting {book book1 : Orderbook} (h : matchStep book = some book1) :
    book1.resting < book.resting := by
  unfold matchStep at h
  split at h
  · rename_i bl bs al as hb ha
    split at h
    · simp only [Option.some.injEq] at h
      have hb1 := settleFront_count bl bs (bl.front.Fill
        (min bl.front.remainingQuantity_ al.front.remainingQuantity_) (Nat.min_le_left _ _))
      have ha1 := settleFront_count al as (al.front.Fill
        (min bl.front.remainingQuantity_ al.front.remainingQuantity_) (Nat.min_le_right _ _))
      have hfill := fill_min_filled bl.front al.front
      rw [← h]
      simp only [Orderbook.resting, hb, ha]
      rcases hfill with hf | hf
      · rw [if_pos hf] at hb1
        split at ha1 <;> omega
      · rw [if_pos hf] at ha1
        split at hb1 <;> omega
    · simp at h
  · simp at h

theorem matchStep_ordered {book book1 : Orderbook} (h : matchStep book = some book1)
    (ho : book.ordered) : book1.ordered := by
  unfold matchStep at h
  split at h
  · rename_i bl bs al as hb ha
    split at h
    · simp only [Option.some.injEq] at h
      rw [← h]
      obtain ⟨hbids, hasks⟩ := ho
      rw [hb] at hbids
      rw [ha] at hasks
      exact ⟨priceOrdered_sublist (settleFront_sublist _ _ _) hbids,
        priceOrdered_sublist (settleFront_sublist _ _ _) hasks⟩
    · simp at h
  · simp at h

/-- When the loop condition is false the book is not crossed. -/
theorem matchStep_none {book : Orderbook} (h : matchStep book = none) : NoCross book := by
  unfold matchStep at h
  unfold NoCross
  split at h
  · rename_i bl bs al as hb ha
    split at h
    · simp at h
    · rename_i hle
      exact Nat.lt_of_not_le hle
  · trivial

/-- With as much fuel as there are resting orders, the matching loop runs
until its condition is false. -/
theorem MatchOrders_done :
    ∀ (fuel : Nat) (book : Orderbook), book.resting ≤ fuel →
      matchStep (MatchOrders fuel book) = none := by
  intro fuel
  induction fuel with
  | zero =>
    intro book h
    have hb : book.bids = [] := levelCount_eq_zero (by unfold Orderbook.resting at h; omega)
    simp [MatchOrders, matchStep, hb]
  | succ fuel ih =>
    intro book h
    unfold MatchOrders
    cases hstep : matchStep book with
    | none => exact hstep
    | some book1 =>
      have := matchStep_resting hstep
      exact ih book1 (by omega)

theorem MatchOrders_ordered :
    ∀ (fuel : Nat) (book : Orderbook), book.ordered → (MatchOrders fuel book).ordered := by
  intro fuel
  induction fuel with
  | zero => intro book h; exact h
  | succ fuel ih =>
    intro book h
    unfold MatchOrders
    cases hstep : matchStep book with
    | none => exact h
    | some book1 => exact ih book1 (matchStep_ordered hstep h)

theorem head_best_bid {bl : Level} {bs : List Level} (h : priceOrdered Side.Buy (bl :: bs)) :
    ∀ b ∈ levelPrices (bl :: bs), b ≤ bl.price := by
  intro b hb
  simp only [levelPrices, List.map_cons, List.mem_cons] at hb
  rcases hb with hb | hb
  · exact Nat.le_of_eq hb
  · have := (List.pairwise_cons.mp h).1 b hb
    simp only [goesBefore, decide_eq_true_eq] at this
    exact Nat.le_of_lt this

theorem head_best_ask {al : Level} {as : List Level} (h : priceOrdered Side.Sell (al :: as)) :
    ∀ a ∈ levelPrices (al :: as), al.price ≤ a := by
  intro a ha
  simp only [levelPrices, List.map_cons, List.mem_cons] at ha
  rcases ha with ha | ha
  · exact Nat.le_of_eq ha.symm
  · have := (List.pairwise_cons.mp h).1 a ha
    simp only [goesBefore, decide_eq_true_eq] at this
    exact Nat.le_of_lt this

/-- In a price-ordered book that is not crossed at its best levels, every bid
is below every ask. -/
theorem separated_of_noCross {book : Orderbook} (ho : book.ordered) (hn : NoCross book) :
    book.separated := by
  intro b hb a ha
  obtain ⟨hbids, hasks⟩ := ho
  unfold NoCross at hn
  cases hbs : book.bids with
  | nil => rw [hbs] at hb; simp [levelPrices] at hb
  | cons bl bs =>
    cases has : book.asks with
    | nil => rw [has] at ha; simp [levelPrices] at ha
    | cons al as =>
      rw [hbs, has] at hn
      rw [hbs] at hb hbids
      rw [has] at ha hasks
      have h1 := head_best_bid hbids b hb
      have h2 := head_best_ask hasks a ha
      have h3 : bl.price < al.price := hn
      exact Nat.lt_of_le_of_lt h1 (Nat.lt_of_lt_of_le h3 h2)

theorem noCross_of_separated {book : Orderbook} (hs : book.separated) : NoCross book := by
  unfold NoCross
  split
  · rename_i bl bs al as hb ha
    exact hs bl.price (by simp [levelPrices, hb]) al.price (by simp [levelPrices, ha])
  · trivial

theorem CancelOrder_ordered (book : Orderbook) (orderId : OrderId) (ho : book.ordered) :
    (CancelOrder book orderId).ordered := by
  unfold CancelOrder
  split
  · exact ho
  · exact ⟨priceOrdered_sublist (removeLevel_sublist _ _ _) ho.1, ho.2⟩
  · exact ⟨ho.1, priceOrdered_sublist (removeLevel_sublist _ _ _) ho.2⟩

theorem CancelOrder_separated (book : Orderbook) (orderId : OrderId) (hs : book.separated) :
    (CancelOrder book orderId).separated := by
  unfold CancelOrder
  split
  · exact hs
  · intro b hb a ha
    exact hs b ((removeLevel_sublist _ _ _).subset hb) a ha
  · intro b hb a ha
    exact hs b hb a ((removeLevel_sublist _ _ _).subset ha)

theorem CancelOrder_noCross (book : Orderbook) (orderId : OrderId) (ho : book.ordered)
    (hn : NoCross book) : NoCross (CancelOrder book orderId) :=
  noCross_of_separated (CancelOrder_separated book orderId (separated_of_noCross ho hn))

theorem insertOrder_ordered (book : Orderbook) (order : Order) (ho : book.ordered) :
    (insertOrder book order).ordered := by
  unfold insertOrder
  split
  · exact ⟨insertLevel_ordered _ _ _ ho.1, ho.2⟩
  · exact ⟨ho.1, insertLevel_ordered _ _ _ ho.2⟩

theorem AddOrder_ordered (book : Orderbook) (order : Order) (ho : book.ordered) :
    (AddOrder book order).ordered := by
  unfold AddOrder
  split
  · exact ho
  · split
    · exact ho
    · rename_i accepted _
      have h2 := MatchOrders_ordered (insertOrder book accepted).resting _
        (insertOrder_ordered book accepted ho)
      simp only
      split
      · exact CancelOrder_ordered _ _ h2
      · exact h2

theorem AddOrder_noCross (book : Orderbook) (order : Order) (ho : book.ordered)
    (hn : NoCross book) : NoCross (AddOrder book order) := by
  unfold AddOrder
  split
  · exact hn
  · split
    · exact hn
    · rename_i accepted _
      have h2 := MatchOrders_ordered (insertOrder book accepted).resting _
        (insertOrder_ordered book accepted ho)
      have h3 := matchStep_none
        (MatchOrders_done (insertOrder book accepted).resting _ (Nat.le_refl _))
      simp only
      split
      · exact CancelOrder_noCross _ _ h2 h3
      · exact h3

theorem ModifyOrder_ordered (book : Orderbook) (order : OrderModify) (ho : book.ordered) :
    (ModifyOrder book order).ordered := by
  unfold ModifyOrder
  split
  · exact ho
  · exact AddOrder_ordered _ _ (CancelOrder_ordered _ _ ho)

theorem ModifyOrder_noCross (book : Orderbook) (order : OrderModify) (ho : book.ordered)
    (hn : NoCross book) : NoCross (ModifyOrder book order) := by
  unfold ModifyOrder
  split
  · exact hn
  · exact AddOrder_noCross _ _ (CancelOrder_ordered _ _ ho) (CancelOrder_noCross _ _ ho hn)

/-- Each engine call keeps the book price-ordered and uncrossed. -/
theorem applyCall_invariant (book : Orderbook) (call : EngineCall)
    (h : book.ordered ∧ NoCross book) :
    (applyCall engine book call).ordered ∧ NoCross (applyCall engine book call) := by
  cases call with
  | AddOrder order => exact ⟨AddOrder_ordered _ _ h.1, AddOrder_noCross _ _ h.1 h.2⟩
  | CancelOrder orderId => exact ⟨CancelOrder_ordered _ _ h.1, CancelOrder_noCross _ _ h.1 h.2⟩
  | ModifyOrder order => exact ⟨ModifyOrder_ordered _ _ h.1, ModifyOrder_noCross _ _ h.1 h.2⟩

theorem foldl_invariant (calls : List EngineCall) :
    ∀ book : Orderbook, book.ordered ∧ NoCross book →
      (calls.foldl (applyCall engine) book).ordered ∧
        NoCross (calls.foldl (applyCall engine) book) := by
  induction calls with
  | nil => intro book h; exact h
  | cons call rest ih =>
    intro book h
    exact ih _ (applyCall_invariant book call h)

theorem fresh_invariant : Orderbook.fresh.ordered ∧ NoCross Orderbook.fresh :=
  ⟨⟨List.Pairwise.nil, List.Pairwise.nil⟩, trivial⟩

theorem NoCross_iff (book : Orderbook) :
    NoCross book ↔
      (book.bids = [] ∨ book.asks = [] ∨
        ∃ bl al, book.bids.head? = some bl ∧ book.asks.head? = some al ∧ bl.price < al.price) := by
  unfold NoCross
  cases hb : book.bids with
  | nil => simp
  | cons bl bs =>
    cases ha : book.asks with
    | nil => simp
    | cons al as => simp

/-- C10: after every sequence of `AddOrder`, `CancelOrder` and `ModifyOrder`
calls on a fresh book, and so after every command list the driver dispatches,
the bid side is empty, or the ask side is empty, or the best bid price is
strictly below the best ask price; both sides are in price order, so the first
level of a side is its best. -/
theorem C10_no_crossed_book (calls : List EngineCall) (actions : List Information) :
    ((calls.foldl (applyCall engine) Orderbook.fresh).bids = [] ∨
     (calls.foldl (applyCall engine) Orderbook.fresh).asks = [] ∨
     ∃ bl al, (calls.foldl (applyCall engine) Orderbook.fresh).bids.head? = some bl ∧
       (calls.foldl (applyCall engine) Orderbook.fresh).asks.head? = some al ∧
       bl.price < al.price) ∧
    (calls.foldl (applyCall engine) Orderbook.fresh).ordered ∧
    ((dispatch engine actions Orderbook.fresh).bids = [] ∨
     (dispatch engine actions Orderbook.fresh).asks = [] ∨
     ∃ bl al, (dispatch engine actions Orderbook.fresh).bids.head? = some bl ∧
       (dispatch engine actions Orderbook.fresh).asks.head? = some al ∧
       bl.price < al.price) := by
  have h1 := foldl_invariant calls Orderbook.fresh fresh_invariant
  have h2 := foldl_invariant (actions.map callOf) Orderbook.fresh fresh_invariant
  rw [← dispatch_fold] at h2
  exact ⟨(NoCross_iff _).mp h1.2, h1.1, (NoCross_iff _).mp h2.2⟩

/-! ## The whole file is parsed before the engine is called -/

theorem GetActionsLoop_append (uninit : Information) (rest : List Str) :
    ∀ (pre : List Str) (acc : List Information),
      GetActionsLoop uninit (pre ++ rest) acc =
        (GetActionsLoop uninit pre acc).bind (fun acts => GetActionsLoop uninit rest acts) := by
  intro pre
  induction pre with
  | nil => intro acc; simp [GetActionsLoop]
  | cons line pre ih =>
    intro acc
    simp only [List.cons_append, GetActionsLoop]
    split
    · exact ih acc
    · split
      · exact ih _
      · exact ih _
      · rfl
      · rfl

theorem GetActionsLoop_ok_lines (uninit : Information) :
    ∀ (file : List Str) (acc actions : List Information),
      GetActionsLoop uninit file acc = Res.ok actions →
      ∀ line ∈ file, skipLine line = false → ∃ p, TryParseInformation line uninit = Res.ok p := by
  intro file
  induction file with
  | nil => intro acc actions _ line hm; exact absurd hm (List.not_mem_nil _)
  | cons l rest ih =>
    intro acc actions h line hm hs
    unfold GetActionsLoop at h
    rcases List.mem_cons.mp hm with hm | hm
    · subst hm
      rw [if_neg (by simp [hs])] at h
      split at h
      · rename_i action heq; exact ⟨_, heq⟩
      · rename_i action heq; exact ⟨_, heq⟩
      · simp at h
      · simp at h
    · split at h
      · exact ih acc actions h line hm hs
      · split at h
        · exact ih _ actions h line hm hs
        · exact ih _ actions h line hm hs
        · simp at h
        · simp at h

theorem GetActionsOnly_raise (uninit : Information) (pre post : List Str) (line : Str)
    (acts : List Information) (e : Exn) (hpre : GetActionsOnly uninit pre = Res.ok acts)
    (hskip : skipLine line = false) (hline : TryParseInformation line uninit = Res.throw e) :
    GetActionsOnly uninit (pre ++ line :: post) = Res.throw e := by
  unfold GetActionsOnly at hpre ⊢
  rw [GetActionsLoop_append, hpre, Res.bind_ok]
  unfold GetActionsLoop
  rw [if_neg (by simp [hskip]), hline]

/-- C11: the whole file is parsed before the first engine call. When a line
makes the parser raise (the lines before it having been parsed into the
commands `acts`), the engine receives no call at all, not even for `acts`,
and `main` returns `1` with the engine as constructed; and a run in which the
engine received a call is a run in which every line that is not skipped was
parsed without error. -/
theorem C11_all_or_nothing (uninit : Information) (pre post : List Str) (line : Str)
    (acts : List Information) (e : Exn) (hpre : GetActionsOnly uninit pre = Res.ok acts)
    (hskip : skipLine line = false) (hline : TryParseInformation line uninit = Res.throw e) :
    main recorder 2 true uninit (pre ++ line :: post) [] =
      some { exitCode := 1, orderbook := [], printed := false } ∧
    (∀ {σ : Type} (E : Engine σ) (book : σ),
      main E 2 true uninit (pre ++ line :: post) book =
        some { exitCode := 1, orderbook := book, printed := false }) ∧
    (∀ (argc : Nat) (fileExists : Bool) (file : List Str) (r : RunResult (List EngineCall)),
      main recorder argc fileExists uninit file [] = some r → r.orderbook ≠ [] →
      (∃ actions, GetActionsOnly uninit file = Res.ok actions ∧
        r.orderbook = actions.map callOf) ∧
      ∀ l ∈ file, skipLine l = false → ∃ p, TryParseInformation l uninit = Res.ok p) := by
  have hraise := GetActionsOnly_raise uninit pre post line acts e hpre hskip hline
  refine ⟨?_, ?_, ?_⟩
  · simp [main, hraise]
  · intro σ E book
    simp [main, hraise]
  · intro argc fileExists file r hr hne
    unfold main at hr
    split at hr
    · simp only [Option.some.injEq] at hr
      rw [← hr] at hne
      exact absurd rfl hne
    · split at hr
      · simp only [Option.some.injEq] at hr
        rw [← hr] at hne
        exact absurd rfl hne
      · split at hr
        · rename_i actions hok
          simp only [Option.some.injEq] at hr
          refine ⟨⟨actions, hok, ?_⟩, GetActionsLoop_ok_lines uninit file [] actions hok⟩
          rw [← hr, dispatch_recorder]
          simp
        · simp only [Option.some.injEq] at hr
          rw [← hr] at hne
          exact absurd rfl hne
        · simp at hr

theorem C11_all_or_nothing_witness :
    GetActionsOnly blank ["A B GoodTillCancel 100 10 1".toList, "C 1".toList] =
      Res.ok [⟨ActionType.Add, OrderType.GoodTillCancel, Side.Buy, 100, 10, 1⟩,
              ⟨ActionType.Cancel, OrderType.GoodTillCancel, Side.Buy, 0, 0, 1⟩] ∧
    skipLine "M 1 Q 5 5".toList = false ∧
    TryParseInformation "M 1 Q 5 5".toList blank = Res.throw (Exn.logic_error "Unknown Side") ∧
    main recorder 2 true blank
      (["A B GoodTillCancel 100 10 1".toList, "C 1".toList] ++
        "M 1 Q 5 5".toList :: ["A S GoodTillCancel 100 4 2".toList]) [] =
      some { exitCode := 1, orderbook := [], printed := false } :=
  ⟨rfl, rfl, rfl,
    (C11_all_or_nothing blank ["A B GoodTillCancel 100 10 1".toList, "C 1".toList]
      ["A S GoodTillCancel 100 4 2".toList] "M 1 Q 5 5".toList _ _ rfl rfl rfl).1⟩

/-! ## One command per recognised line -/

/-- The boolean returned by `TryParseInformation` and the kind of the command
it fills in depend on the first character of the line only. -/
theorem TryParse_kind {line : Str} {uninit a : Information} {b : Bool}
    (h : TryParseInformation line uninit = Res.ok (b, a)) :
    (b = true → lineKind line = some a.type_) ∧ (b = false → lineKind line = none) := by
  cases line with
  | nil => simp [TryParseInformation] at h
  | cons value rest =>
    simp only [TryParseInformation, Res.monad_bind] at h
    split at h
    · rename_i hA
      obtain ⟨side, -, h⟩ := Res.bind_eq_ok h
      obtain ⟨ot, -, h⟩ := Res.bind_eq_ok h
      obtain ⟨price, -, h⟩ := Res.bind_eq_ok h
      obtain ⟨quantity, -, h⟩ := Res.bind_eq_ok h
      obtain ⟨orderId, -, h⟩ := Res.bind_eq_ok h
      simp only [Res.ok.injEq, Prod.mk.injEq] at h
      obtain ⟨hb, ha⟩ := h
      subst hb
      subst ha
      simp [lineKind, hA]
    · rename_i hA
      split at h
      · rename_i hM
        obtain ⟨orderId, -, h⟩ := Res.bind_eq_ok h
        obtain ⟨side, -, h⟩ := Res.bind_eq_ok h
        obtain ⟨price, -, h⟩ := Res.bind_eq_ok h
        obtain ⟨quantity, -, h⟩ := Res.bind_eq_ok h
        simp only [Res.ok.injEq, Prod.mk.injEq] at h
        obtain ⟨hb, ha⟩ := h
        subst hb
        subst ha
        simp [lineKind, hA, hM]
      · rename_i hM
        split at h
        · rename_i hC
          obtain ⟨orderId, -, h⟩ := Res.bind_eq_ok h
          simp only [Res.ok.injEq, Prod.mk.injEq] at h
          obtain ⟨hb, ha⟩ := h
          subst hb
          subst ha
          simp [lineKind, hA, hM, hC]
        · rename_i hC
          simp only [Res.ok.injEq, Prod.mk.injEq] at h
          obtain ⟨hb, ha⟩ := h
          subst hb
          simp [lineKind, hA, hM, hC]

theorem skipLine_kind {line : Str} (h : skipLine line = true) : lineKind line = none := by
  cases line with
  | nil => rfl
  | cons c rest =>
    simp only [skipLine, Bool.or_eq_true, beq_iff_eq] at h
    rcases h with h | h <;> subst h <;> rfl

/-- A line that begins with none of the three command letters is parsed
without error and yields no command. -/
theorem TryParse_unrecognised {line : Str} (uninit : Information) (hne : line ≠ [])
    (hk : lineKind line = none) : TryParseInformation line uninit = Res.ok (false, uninit) := by
  cases line with
  | nil => exact absurd rfl hne
  | cons c rest =>
    simp only [lineKind] at hk
    have hA : c ≠ 'A' := by
      intro h
      simp [h] at hk
    have hM : c ≠ 'M' := by
      intro h
      rw [if_neg hA] at hk
      simp [h] at hk
    have hC : c ≠ 'C' := by
      intro h
      rw [if_neg hA, if_neg hM] at hk
      simp [h] at hk
    simp only [TryParseInformation, hA, hM, hC, if_false]

theorem GetActionsLoop_drop (uninit : Information) {l : Str}
    (hl : skipLine l = true ∨ ∃ x, TryParseInformation l uninit = Res.ok (false, x))
    (post : List Str) :
    ∀ (pre : List Str) (acc : List Information),
      GetActionsLoop uninit (pre ++ l :: post) acc = GetActionsLoop uninit (pre ++ post) acc := by
  intro pre acc
  rw [GetActionsLoop_append, GetActionsLoop_append]
  congr 1
  funext acts
  rw [GetActionsLoop]
  rcases hl with hl | ⟨x, hx⟩
  · rw [if_pos hl]
  · rw [hx]
    split <;> rfl

/-- When every line that is not skipped is parsed without error, the loop of
`GetActionsOnly` appends one command for each recognised line, in order. -/
theorem GetActionsLoop_commands (uninit : Information) :
    ∀ (file : List Str) (acc : List Information),
      (∀ line ∈ file, skipLine line = false →
        ∃ p, TryParseInformation line uninit = Res.ok p) →
      ∃ actions, GetActionsLoop uninit file acc = Res.ok (acc ++ actions) ∧
        List.Forall₂ (fun line a => TryParseInformation line uninit = Res.ok (true, a))
          (file.filter recognised) actions ∧
        actions.map (fun a => a.type_) = file.filterMap lineKind := by
  intro file
  induction file with
  | nil =>
    intro acc _
    exact ⟨[], by simp [GetActionsLoop], by simp, by simp⟩
  | cons l rest ih =>
    intro acc h
    have hrest : ∀ line ∈ rest, skipLine line = false →
        ∃ p, TryParseInformation line uninit = Res.ok p :=
      fun line hm => h line (List.mem_cons_of_mem _ hm)
    by_cases hs : skipLine l = true
    · obtain ⟨actions, h1, h2, h3⟩ := ih acc hrest
      have hk := skipLine_kind hs
      refine ⟨actions, ?_, ?_, ?_⟩
      · rw [GetActionsLoop, if_pos hs, h1]
      · simpa [List.filter_cons, recognised, hk] using h2
      · simpa [List.filterMap_cons, hk] using h3
    · have hs2 : skipLine l = false := by simpa using hs
      obtain ⟨⟨b, a⟩, hp⟩ := h l (List.mem_cons_self _ _) hs2
      have hkind := TryParse_kind hp
      cases b with
      | true =>
        have hk := hkind.1 rfl
        obtain ⟨actions, h1, h2, h3⟩ := ih (acc ++ [a]) hrest
        refine ⟨a :: actions, ?_, ?_, ?_⟩
        · rw [GetActionsLoop, if_neg hs, hp]
          simp only [h1, List.append_assoc, List.singleton_append]
        · simp only [List.filter_cons, recognised, hk, Option.isSome_some, if_true]
          exact List.Forall₂.cons hp h2
        · simp only [List.map_cons, List.filterMap_cons, hk, h3]
      | false =>
        have hk := hkind.2 rfl
        obtain ⟨actions, h1, h2, h3⟩ := ih acc hrest
        refine ⟨actions, ?_, ?_, ?_⟩
        · rw [GetActionsLoop, if_neg hs, hp]
          simp only [h1]
        · simpa [List.filter_cons, recognised, hk] using h2
        · simpa [List.filterMap_cons, hk] using h3

/-- C12: when every line that is not skipped is parsed without error,
`GetActionsOnly` returns a list with exactly one command for each line whose
first character is `A`, `M` or `C`, in file order; each is the command parsed
from its line, and its kind is the one its first character stands for. A
non-empty line beginning with any other character yields neither a command nor
an error: removing it from the file, wherever it stands, changes nothing. -/
theorem C12_one_command_per_line (uninit : Information) (file : List Str)
    (h : ∀ line ∈ file, skipLine line = false →
      ∃ p, TryParseInformation line uninit = Res.ok p) :
    ∃ actions, GetActionsOnly uninit file = Res.ok actions ∧
      actions.length = (file.filter recognised).length ∧
      List.Forall₂ (fun line a => TryParseInformation line uninit = Res.ok (true, a))
        (file.filter recognised) actions ∧
      actions.map (fun a => a.type_) = file.filterMap lineKind ∧
      ∀ (l : Str), l ≠ [] → recognised l = false →
        GetActionsOnly uninit [l] = Res.ok [] ∧
        ∀ pre post : List Str,
          GetActionsOnly uninit (pre ++ l :: post) = GetActionsOnly uninit (pre ++ post) := by
  obtain ⟨actions, h1, h2, h3⟩ := GetActionsLoop_commands uninit file [] h
  refine ⟨actions, by simpa [GetActionsOnly] using h1, h2.length_eq.symm, h2, h3, ?_⟩
  intro l hne hrec
  have hk : lineKind l = none := by
    simpa [recognised] using hrec
  have hdrop : skipLine l = true ∨ ∃ x, TryParseInformation l uninit = Res.ok (false, x) :=
    Or.inr ⟨uninit, TryParse_unrecognised uninit hne hk⟩
  refine ⟨?_, fun pre post => GetActionsLoop_drop uninit hdrop post pre []⟩
  have := GetActionsLoop_drop uninit hdrop [] [] []
  simpa [GetActionsOnly, GetActionsLoop] using this

theorem C12_one_command_per_line_witness :
    GetActionsOnly blank
      ["Add B GoodTillCancel 100 10 1".toList, "x comment".toList, "C 1".toList] =
      Res.ok [⟨ActionType.Add, OrderType.GoodTillCancel, Side.Buy, 100, 10, 1⟩,
              ⟨ActionType.Cancel, OrderType.GoodTillCancel, Side.Buy, 0, 0, 1⟩] ∧
    ∃ actions,
      GetActionsOnly blank
        ["Add B GoodTillCancel 100 10 1".toList, "x comment".toList, "C 1".toList] =
        Res.ok actions ∧
      actions.length =
        (["Add B GoodTillCancel 100 10 1".toList, "x comment".toList, "C 1".toList].filter
          recognised).length ∧
      List.Forall₂ (fun line a => TryParseInformation line blank = Res.ok (true, a))
        (["Add B GoodTillCancel 100 10 1".toList, "x comment".toList, "C 1".toList].filter
          recognised) actions ∧
      actions.map (fun a => a.type_) =
        ["Add B GoodTillCancel 100 10 1".toList, "x comment".toList, "C 1".toList].filterMap
          lineKind ∧
      ∀ (l : Str), l ≠ [] → recognised l = false →
        GetActionsOnly blank [l] = Res.ok [] ∧
        ∀ pre post : List Str,
          GetActionsOnly blank (pre ++ l :: post) = GetActionsOnly blank (pre ++ post) :=
  ⟨rfl, C12_one_command_per_line blank
    ["Add B GoodTillCancel 100 10 1".toList, "x comment".toList, "C 1".toList]
    (by
      intro line hm _
      simp only [List.mem_cons, List.mem_singleton, List.not_mem_nil, or_false] at hm
      rcases hm with hm | hm | hm <;> subst hm
      · exact ⟨_, rfl⟩
      · exact ⟨_, rfl⟩
      · exact ⟨_, rfl⟩)⟩

/-! ## `Split` is a correct split -/

theorem intercalate_cons_cons (d : Char) (f g : Str) (fs : List Str) :
    List.intercalate [d] (f :: g :: fs) = f ++ d :: List.intercalate [d] (g :: fs) := by
  simp [List.intercalate, List.intersperse]

theorem intercalate_fields (d : Char) (s : Str) : List.intercalate [d] (fields d s) = s := by
  induction s with
  | nil => simp [fields, List.intercalate]
  | cons c cs ih =>
    obtain ⟨f, fs, hf⟩ := List.exists_cons_of_ne_nil (fields_ne_nil d cs)
    rw [hf] at ih
    by_cases hc : c = d
    · simp only [fields, hc, if_true, hf]
      rw [intercalate_cons_cons, ih]
      rfl
    · simp only [fields, hc, if_false, hf]
      cases fs with
      | nil =>
        have h1 : List.intercalate [d] [f] = f := by simp [List.intercalate]
        have h2 : List.intercalate [d] [c :: f] = c :: f := by simp [List.intercalate]
        rw [h1] at ih
        rw [h2, ih]
      | cons g gs =>
        rw [intercalate_cons_cons] at ih ⊢
        rw [List.cons_append, ih]

theorem fields_mem_no_delim (d : Char) (s : Str) : ∀ col ∈ fields d s, d ∉ col := by
  induction s with
  | nil => simp [fields]
  | cons c cs ih =>
    obtain ⟨f, fs, hf⟩ := List.exists_cons_of_ne_nil (fields_ne_nil d cs)
    rw [hf] at ih
    by_cases hc : c = d
    · simp only [fields, hc, if_true, hf]
      intro col hm
      rcases List.mem_cons.mp hm with hm | hm
      · rw [hm]; exact List.not_mem_nil _
      · exact ih col hm
    · simp only [fields, hc, if_false, hf]
      intro col hm
      rcases List.mem_cons.mp hm with hm | hm
      · rw [hm]
        intro hd
        rcases List.mem_cons.mp hd with hd | hd
        · exact hc hd.symm
        · exact ih f (List.mem_cons_self _ _) hd
      · exact ih col (List.mem_cons_of_mem _ hm)

theorem fields_length (d : Char) (s : Str) : (fields d s).length = s.count d + 1 := by
  induction s with
  | nil => simp [fields]
  | cons c cs ih =>
    obtain ⟨f, fs, hf⟩ := List.exists_cons_of_ne_nil (fields_ne_nil d cs)
    rw [hf] at ih
    by_cases hc : c = d
    · simp only [fields, hc, if_true, hf, List.length_cons, List.count_cons_self] at ih ⊢
      omega
    · simp only [fields, hc, if_false, hf, List.length_cons] at ih ⊢
      rw [List.count_cons_of_ne (fun e => hc e.symm)]
      exact ih

/-- A string that begins with the delimiter leaves the loop at once: `find`
returns `0`, which ends the `while` condition. -/
theorem SplitLoop_begins (d : Char) (rest : Str) (fuel : Nat) :
    SplitLoop (d :: rest) d (fuel + 1) 0 [] = [d :: rest] := by
  simp [SplitLoop, find, findFrom, substrFrom]

theorem Split_begins (d : Char) (rest : Str) : Split (d :: rest) d = [d :: rest] := by
  unfold Split
  exact SplitLoop_begins d rest _

/-- The loop of `Split` leaves through its own condition: any bound on the
iterations above the length of the string gives the same columns. -/
theorem SplitLoop_fuel (s : Str) (d : Char) (fuel : Nat) (h : s.length < fuel) :
    SplitLoop s d fuel 0 [] = Split s d := by
  by_cases hb : ∀ c rest, s = c :: rest → c ≠ d
  · rw [Split_eq_fields hb,
      SplitLoop_eq_fields s d fuel 0 [] (Nat.zero_le _) (by omega) (fun _ => hb)]
    simp
  · simp only [not_forall, not_not] at hb
    obtain ⟨c, rest, hs, hc⟩ := hb
    subst hs
    subst hc
    obtain ⟨k, hk⟩ : ∃ k, fuel = k + 1 := ⟨fuel - 1, by omega⟩
    rw [hk, SplitLoop_begins, Split_begins]

/-- C13: `Split` terminates (every bound on the iterations above the length of
the string gives the same result), and joining its columns with the delimiter
gives the string back. When the string does not begin with the delimiter, no
column contains the delimiter, there is one column more than there are
delimiters, and the columns are the runs between delimiters in left-to-right
order; when it begins with the delimiter, the only column is the string. -/
theorem C13_split_correct (s : Str) (d : Char) :
    (∀ fuel, s.length < fuel → SplitLoop s d fuel 0 [] = Split s d) ∧
    List.intercalate [d] (Split s d) = s ∧
    ((∀ c rest, s = c :: rest → c ≠ d) →
      (∀ col ∈ Split s d, d ∉ col) ∧
      (Split s d).length = s.count d + 1 ∧
      Split s d = fields d s) ∧
    (∀ rest, s = d :: rest → Split s d = [s]) := by
  refine ⟨fun fuel h => SplitLoop_fuel s d fuel h, ?_, ?_, ?_⟩
  · by_cases hb : ∀ c rest, s = c :: rest → c ≠ d
    · rw [Split_eq_fields hb, intercalate_fields]
    · simp only [not_forall, not_not] at hb
      obtain ⟨c, rest, hs, hc⟩ := hb
      subst hs
      subst hc
      rw [Split_begins]
      simp [List.intercalate]
  · intro hb
    rw [Split_eq_fields hb]
    exact ⟨fields_mem_no_delim d s, fields_length d s, rfl⟩
  · intro rest hs
    subst hs
    exact Split_begins d rest

theorem C13_split_correct_witness :
    Split "A  B ".toList ' ' = ["A".toList, [], "B".toList, []] ∧
    (SplitLoop "A  B ".toList ' ' 9 0 [] = Split "A  B ".toList ' ') ∧
    List.intercalate [' '] (Split "A  B ".toList ' ') = "A  B ".toList ∧
    ((∀ col ∈ Split "A  B ".toList ' ', ' ' ∉ col) ∧
      (Split "A  B ".toList ' ').length = "A  B ".toList.count ' ' + 1 ∧
      Split "A  B ".toList ' ' = fields ' ' "A  B ".toList) ∧
    Split " A B".toList ' ' = [" A B".toList] :=
  ⟨rfl,
    (C13_split_correct "A  B ".toList ' ').1 9 (by decide),
    (C13_split_correct "A  B ".toList ' ').2.1,
    (C13_split_correct "A  B ".toList ' ').2.2.1 (by
      intro c rest h
      have hc : 'A' = c := (List.cons.inj h).1
      rw [← hc]
      decide),
    (C13_split_correct " A B".toList ' ').2.2.2 "A B".toList rfl⟩

/-! ## `ToNumber` wraps -/

/-- C14: on a non-empty string of decimal digits denoting a value `v` below
`2 ^ 63`, `ToNumber` raises no error and returns `v % 2 ^ 32`; the result is
`v` itself exactly when `v < 2 ^ 32`, and `4294967296` reads as `0`. -/
theorem C14_ToNumber_wraps (s : Str) (hs : isDecimal s = true) (hv : decVal s < 2 ^ 63) :
    ToNumber s = Res.ok (decVal s % 2 ^ 32) ∧
    (ToNumber s).raises = false ∧
    (ToNumber s = Res.ok (decVal s) ↔ decVal s < 2 ^ 32) ∧
    ToNumber "4294967296".toList = Res.ok 0 := by
  have h : ToNumber s = Res.ok (decVal s % 2 ^ 32) := by
    simp only [ToNumber, from_chars_decimal hs hv]
    have hneg : ¬ ((decVal s : Int) < 0) := by omega
    simp only [hneg, if_false, Int.toNat_ofNat]
  refine ⟨h, by rw [h]; rfl, ?_, rfl⟩
  rw [h]
  constructor
  · intro heq
    have hmod : decVal s % 2 ^ 32 = decVal s := by
      injection heq
    rw [← hmod]
    exact Nat.mod_lt _ (by norm_num)
  · intro hlt
    rw [Nat.mod_eq_of_lt hlt]

theorem C14_ToNumber_wraps_witness :
    isDecimal "4294967301".toList = true ∧ decVal "4294967301".toList < 2 ^ 63 ∧
    (ToNumber "4294967301".toList = Res.ok (decVal "4294967301".toList % 2 ^ 32) ∧
      (ToNumber "4294967301".toList).raises = false ∧
      (ToNumber "4294967301".toList = Res.ok (decVal "4294967301".toList) ↔
        decVal "4294967301".toList < 2 ^ 32) ∧
      ToNumber "4294967296".toList = Res.ok 0) ∧
    ToNumber "4294967301".toList = Res.ok 5 :=
  ⟨by decide, by decide,
    C14_ToNumber_wraps "4294967301".toList (by decide) (by decide), rfl⟩

end Present
